import Mathlib

/-!
# Verification of the STM32 frame-protocol firmware

A shallow embedding, in Lean 4, of the core of the firmware:

* the wire frame codec (`proto_cpp/src/frame.cpp`, `proto_cpp/include/frame.h`):
  escaping, CRC32, serialization and deserialization;
* the bounded vector (`proto_cpp/include/static_vec.h`);
* the interrupt-shared ring buffer (`proto_cpp/include/circular_buffer.h`);
* the frame extractor and command dispatcher
  (`Projekt/Core/Src/command_handler.cpp`, `Projekt/Core/Src/commands.cpp`,
  `Projekt/Core/Src/usart_tx_handler.cpp`).

Machine integers are modelled as `Nat` with explicit `% 2^w` where overflow
matters; byte buffers are `List Nat`; fallible operations return their error
codes as in the source.  Loops are embedded either structurally or with an
explicit fuel argument equal to the exact number of iterations the source
loop can perform (the fuel counts the remaining distance to the loop's stop
index, so fuel exhaustion coincides with the loop's exit condition).
-/

namespace Stm32

/-! ## Constants, `frame.h` -/

/-- `ESCAPE_BYTE = 0x1B` -/
def ESCAPE_BYTE : Nat := 0x1B

/-- `BEGIN_FRAME_BYTE = '('` -/
def BEGIN_FRAME_BYTE : Nat := 40

/-- `END_FRAME_BYTE = ')'` -/
def END_FRAME_BYTE : Nat := 41

/-- `ESCAPE_TABLE`: left byte is replaced by the pair { `ESCAPE_BYTE`, right byte }. -/
def ESCAPE_TABLE : List (Nat × Nat) :=
  [(ESCAPE_BYTE, 0x41), (BEGIN_FRAME_BYTE, 0x42), (END_FRAME_BYTE, 0x43)]

/-- `FRAME_MAX_SIZE = 1280` -/
def FRAME_MAX_SIZE : Nat := 1280

/-- `FRAME_MIN_SIZE = 10` -/
def FRAME_MIN_SIZE : Nat := 10

/-- `FRAME_DATA_MAX_SIZE = FRAME_MAX_SIZE - FRAME_MIN_SIZE - 2` (as in `frame.h`). -/
def FRAME_DATA_MAX_SIZE : Nat := FRAME_MAX_SIZE - FRAME_MIN_SIZE - 2

/-- `enum DeserializeError` from `frame.h`. -/
inductive DeserializeError where
  | DeserializeOk
  | InvalidStartByte
  | InvalidEndByte
  | UnexpectedEOF
  | ExpectedEOF
  | CRC32MissMatch
  | InvalidEscapeSequence
  | DataTooBig
  | InvalidByte
deriving DecidableEq, Repr

/-- `enum SerializeError` from `frame.h`. -/
inductive SerializeError where
  | SerializeOk
  | FrameTooLongError
  | BufferTooSmall
deriving DecidableEq, Repr

export DeserializeError (DeserializeOk InvalidStartByte InvalidEndByte
  UnexpectedEOF ExpectedEOF CRC32MissMatch InvalidEscapeSequence DataTooBig InvalidByte)
export SerializeError (SerializeOk FrameTooLongError BufferTooSmall)

/-! ## `StaticVec`, `static_vec.h`

The C++ `StaticVec<T, SIZE>` is a fixed array of capacity `SIZE` plus a
logical size `head`; its logical contents (the first `head` slots) are
modelled as the list `items`, and `SIZE` as the field `cap`. -/

structure StaticVec (α : Type) where
  cap : Nat
  items : List α
deriving DecidableEq, Repr

/-- A fresh, empty `StaticVec<T, cap>`. -/
def StaticVec.empty (α : Type) (cap : Nat) : StaticVec α := ⟨cap, []⟩

/-- `push_back`: appends if `size < SIZE` and yields `none`; otherwise leaves
the vector unchanged and yields back the rejected value. -/
def StaticVec.push_back {α} (v : StaticVec α) (a : α) : Option α × StaticVec α :=
  if v.items.length < v.cap then (none, ⟨v.cap, v.items ++ [a]⟩) else (some a, v)

/-- `clear`: resets size to 0. -/
def StaticVec.clear {α} (v : StaticVec α) : StaticVec α := ⟨v.cap, []⟩

/-- `size()` -/
def StaticVec.size {α} (v : StaticVec α) : Nat := v.items.length

/-- The `for` loop of `IStaticVec::push_slice`: push the elements one by one,
breaking at the first rejected push. -/
def pushSliceLoop {α} (v : StaticVec α) : List α → StaticVec α
  | [] => v
  | a :: rest =>
    let (r, v') := v.push_back a
    match r with
    | some _ => v'            -- push rejected: `break`
    | none => pushSliceLoop v' rest

/-- `IStaticVec::push_slice`: runs the push loop; the local counter `count`
is initialised to 0, never incremented, and returned. -/
def StaticVec.push_slice {α} (v : StaticVec α) (data : List α) : Nat × StaticVec α :=
  (0, pushSliceLoop v data)

/-! ## Byte-order helpers, `bytes.h`

`to_be_bytes` on an unsigned `k`-byte integer yields its big-endian bytes;
`from_be_bytes` rebuilds the value.  A `Nat` `n` stored in a `k`-byte unsigned
field denotes `n % 256^k`, which is what the byte decomposition captures. -/

/-- Big-endian byte decomposition of `n` into `k` bytes (`to_be_bytes`). -/
def to_be_bytes (k n : Nat) : List Nat :=
  (List.range k).reverse.map (fun i => n / 256 ^ i % 256)

/-- Big-endian byte recomposition (`from_be_bytes`). -/
def from_be_bytes (bs : List Nat) : Nat :=
  bs.foldl (fun a b => a * 256 + b) 0

/-! ## CRC32, `frame.cpp` -/

/-- One inner iteration of `crc32_calculate`: shift left, conditionally xor
the polynomial `0x04C11DB7` (the C `(0 - msb) & poly` mask). -/
def crc32_step (crc : Nat) : Nat :=
  let msb := crc >>> 31
  let crc2 := (crc <<< 1) % 2 ^ 32
  crc2 ^^^ (if msb % 2 = 1 then 0x04C11DB7 else 0)

/-- `crc32_calculate`: seed `0xFFFFFFFF`, xor each byte into the top bits,
eight shift-xor rounds per byte, no final complement. -/
def crc32_calculate (data : List Nat) : Nat :=
  data.foldl (fun crc b => crc32_step^[8] (crc ^^^ ((b % 256) <<< 24))) 0xFFFFFFFF

/-! ## `Frame`, `frame.h` / `frame.cpp` -/

/-- `struct Frame`: sender, receiver (both `uint8_t`) and the payload
`StaticVec<uint8_t, FRAME_DATA_MAX_SIZE> data`. -/
structure Frame where
  sender : Nat
  receiver : Nat
  data : StaticVec Nat
deriving DecidableEq, Repr

/-- The well-formedness the C++ types enforce: the id bytes are `uint8_t`
values and `data` is a `StaticVec<uint8_t, FRAME_DATA_MAX_SIZE>`. -/
def Frame.WF (f : Frame) : Prop :=
  f.sender < 256 ∧ f.receiver < 256 ∧ f.data.cap = FRAME_DATA_MAX_SIZE ∧
    f.data.items.length ≤ f.data.cap

instance (f : Frame) : Decidable f.WF := by unfold Frame.WF; infer_instance

/-- `operator==(Frame, Frame)`: same sender, receiver, payload length and
payload bytes. -/
def frameEq (lhs rhs : Frame) : Prop :=
  lhs.sender = rhs.sender ∧ lhs.receiver = rhs.receiver ∧ lhs.data.items = rhs.data.items

instance (f g : Frame) : Decidable (frameEq f g) := by unfold frameEq; infer_instance

/-- The padding loop of `Frame::crc32`: `while (buf.size() % 4 != 0) buf.push_back(0)`.
At most 3 pushes are ever needed, so fuel 3 is exact (the source loop can only
fail to terminate if the vector is full, which its capacity rules out). -/
def crcPad : Nat → StaticVec Nat → StaticVec Nat
  | 0, buf => buf
  | fuel + 1, buf =>
    if buf.items.length % 4 ≠ 0 then crcPad fuel (buf.push_back 0).2 else buf

/-- `Frame::crc32`: serialize sender, receiver, `(uint16_t)data.size()` and the
payload unescaped into a `StaticVec<uint8_t, FRAME_MAX_SIZE>`, pad with zeroes
to a multiple of 4, and run `crc32_calculate`. -/
def Frame.crc32 (f : Frame) : Nat :=
  let buf := StaticVec.empty Nat FRAME_MAX_SIZE
  let buf := (buf.push_slice (to_be_bytes 1 f.sender)).2
  let buf := (buf.push_slice (to_be_bytes 1 f.receiver)).2
  let buf := (buf.push_slice (to_be_bytes 2 f.data.items.length)).2
  let buf := (buf.push_slice f.data.items).2
  let buf := crcPad 3 buf
  crc32_calculate buf.items

/-! ## Escaped encoding, `frame.cpp` -/

/-- `encode_byte`: escape `ESCAPE_BYTE`, `BEGIN_FRAME_BYTE` and
`END_FRAME_BYTE` through `ESCAPE_TABLE`, pass every other byte through. -/
def encode_byte (b : Nat) (out : StaticVec Nat) : StaticVec Nat :=
  match ESCAPE_TABLE.find? (fun e => e.1 == b) with
  | some e => ((out.push_back ESCAPE_BYTE).2.push_back e.2).2
  | none => (out.push_back b).2

/-- `encode_bytes`: escape a whole byte sequence. -/
def encode_bytes (data : List Nat) (out : StaticVec Nat) : StaticVec Nat :=
  data.foldl (fun o b => encode_byte b o) out

/-- `serialize_fields`: sender, receiver, `(uint16_t)data.size()` big-endian,
then the payload, all escaped.  (The source always returns `SerializeOk`.) -/
def serialize_fields (f : Frame) (out : StaticVec Nat) : StaticVec Nat :=
  let out := encode_bytes (to_be_bytes 1 f.sender) out
  let out := encode_bytes (to_be_bytes 1 f.receiver) out
  let out := encode_bytes (to_be_bytes 2 f.data.items.length) out
  encode_bytes f.data.items out

/-- `Frame::serialize_into`: reject oversized payloads, then write
`BEGIN_FRAME_BYTE`, the escaped fields, the escaped CRC32 and
`END_FRAME_BYTE`; only the final push reports `BufferTooSmall`. -/
def Frame.serialize_into (f : Frame) (out : StaticVec Nat) : SerializeError × StaticVec Nat :=
  if f.data.items.length > FRAME_DATA_MAX_SIZE then (FrameTooLongError, out)
  else
    let out := (out.push_back BEGIN_FRAME_BYTE).2
    let out := serialize_fields f out
    let out := encode_bytes (to_be_bytes 4 f.crc32) out
    let (r, out) := out.push_back END_FRAME_BYTE
    if r.isSome then (BufferTooSmall, out) else (SerializeOk, out)

/-! ## Escaped decoding, `frame.cpp` -/

/-- `decode_byte`: decode one (possibly escaped) byte, yielding the byte and
the number of input bytes consumed. -/
def decode_byte : List Nat → Except DeserializeError (Nat × Nat)
  | [] => .error UnexpectedEOF
  | d0 :: rest =>
    if d0 = ESCAPE_BYTE then
      match rest with
      | [] => .error UnexpectedEOF
      | d1 :: _ =>
        match ESCAPE_TABLE.find? (fun e => e.2 == d1) with
        | some e => .ok (e.1, 2)
        | none => .error InvalidEscapeSequence
    else if d0 = BEGIN_FRAME_BYTE ∨ d0 = END_FRAME_BYTE then .error InvalidByte
    else .ok (d0, 1)

/-- `decode_bytes`: decode the whole sequence, pushing each decoded byte
(ignoring the push result, as the source does) into `out`, then advance the
input by the consumed count.  `decode_byte` consumes `read ≥ 1` bytes
whenever it succeeds, so advancing by `read` over `d0 :: rest` is dropping
`read - 1` bytes of `rest`; this phrasing makes the recursion well-founded. -/
def decode_bytes (out : StaticVec Nat) : List Nat → Except DeserializeError (StaticVec Nat)
  | [] => .ok out
  | d0 :: rest =>
    match decode_byte (d0 :: rest) with
    | .error e => .error e
    | .ok (b, read) => decode_bytes (out.push_back b).2 (rest.drop (read - 1))
termination_by data => data.length
decreasing_by
  simp only [List.length_cons, List.length_drop]
  omega

/-- The field-deserialization helper `deserialize<T>`: read `sizeof(T) = k`
big-endian bytes at `idx`, or fail with `UnexpectedEOF`. -/
def deserializeField (data : List Nat) (idx k : Nat) :
    Except DeserializeError (Nat × Nat) :=
  if idx + k > data.length then .error UnexpectedEOF
  else .ok (from_be_bytes ((data.drop idx).take k), idx + k)

/-- `Frame::deserialize_from_decoded`: parse sender, receiver, length, payload
and CRC from the already-unescaped bytes, mutating `f` field by field exactly
as the source does (so a late error leaves the earlier fields overwritten). -/
def Frame.deserialize_from_decoded (f : Frame) (dec : List Nat) :
    DeserializeError × Frame :=
  match deserializeField dec 0 1 with
  | .error e => (e, f)
  | .ok (s, idx) =>
    let f := { f with sender := s }
    match deserializeField dec idx 1 with
    | .error e => (e, f)
    | .ok (r, idx) =>
      let f := { f with receiver := r }
      match deserializeField dec idx 2 with
      | .error e => (e, f)
      | .ok (data_len, idx) =>
        if data_len > FRAME_DATA_MAX_SIZE then (DataTooBig, f)
        else if idx + data_len ≥ dec.length then (UnexpectedEOF, f)
        else
          let f := { f with data := (f.data.clear.push_slice ((dec.drop idx).take data_len)).2 }
          let idx := idx + data_len
          match deserializeField dec idx 4 with
          | .error e => (e, f)
          | .ok (crc, idx) =>
            if idx ≠ dec.length then (ExpectedEOF, f)
            else if crc ≠ f.crc32 then (CRC32MissMatch, f)
            else (DeserializeOk, f)

/-- `Frame::deserialize_from(span)`: check the minimum size and the framing
bytes, unescape the interior into a `StaticVec<uint8_t, FRAME_MAX_SIZE>`, then
parse the fields. -/
def Frame.deserialize_from (f : Frame) (encoded : List Nat) :
    DeserializeError × Frame :=
  if encoded.length < FRAME_MIN_SIZE then (UnexpectedEOF, f)
  else if encoded.headD 0 ≠ BEGIN_FRAME_BYTE then (InvalidStartByte, f)
  else if encoded.getLastD 0 ≠ END_FRAME_BYTE then (InvalidEndByte, f)
  else
    match decode_bytes (StaticVec.empty Nat FRAME_MAX_SIZE) (encoded.drop 1).dropLast with
    | .error e => (e, f)
    | .ok decoded => f.deserialize_from_decoded decoded.items

/-! ## `CircularBuffer`, `circular_buffer.h`

`CircularBuffer<SIZE>` is a byte array of length `SIZE` with a producer index
`head` and a consumer index `tail`, both mod `SIZE`. -/

structure CircBuf where
  cap : Nat
  buf : List Nat
  head : Nat
  tail : Nat
deriving DecidableEq, Repr

/-- The statically-allocated buffer in its initial state (`tail = head = 0`,
zero-initialised storage). -/
def CircBuf.init (cap : Nat) : CircBuf := ⟨cap, List.replicate cap 0, 0, 0⟩

/-- `push_head`: write at `head` and advance it, unless the advanced head
would collide with `tail` (buffer full), in which case the value is
returned back. -/
def CircBuf.push_head (c : CircBuf) (v : Nat) : Option Nat × CircBuf :=
  let incr_head := (c.head + 1) % c.cap
  if incr_head ≠ c.tail then
    (none, { c with buf := c.buf.set c.head v, head := incr_head })
  else (some v, c)

/-- `pop_tail`: read at `tail` and advance it, or `none` when `tail = head`. -/
def CircBuf.pop_tail (c : CircBuf) : Option Nat × CircBuf :=
  if c.tail ≠ c.head then
    (some (c.buf.getD c.tail 0), { c with tail := (c.tail + 1) % c.cap })
  else (none, c)

/-- `advance_head`: commit the byte the interrupt wrote at `head`; on
collision with `tail` the oldest byte is dropped by advancing `tail` too. -/
def CircBuf.advance_head (c : CircBuf) : CircBuf :=
  let h := (c.head + 1) % c.cap
  if h = c.tail then { c with head := h, tail := (c.tail + 1) % c.cap }
  else { c with head := h }

/-- `getSize()` exactly as written: `head - tail` when `head > tail`, else
`SIZE - tail + head`. -/
def CircBuf.getSize (c : CircBuf) : Nat :=
  if c.head > c.tail then c.head - c.tail else c.cap - c.tail + c.head

/-- One consumer/producer operation on the ring buffer. -/
inductive RingOp where
  | push (v : Nat)
  | pop
  | advance
deriving DecidableEq, Repr

/-- Run one operation, tracking alongside the buffer the number of
unconsumed bytes it holds (the specification-level count: +1 for each byte
successfully pushed or committed, −1 for each byte popped or dropped on
overrun). -/
def ringStep (s : CircBuf × Nat) (op : RingOp) : CircBuf × Nat :=
  match op with
  | .push v =>
    ((s.1.push_head v).2, if (s.1.push_head v).1.isNone then s.2 + 1 else s.2)
  | .pop =>
    (s.1.pop_tail.2, if s.1.pop_tail.1.isSome then s.2 - 1 else s.2)
  | .advance =>
    (s.1.advance_head, if (s.1.head + 1) % s.1.cap = s.1.tail then s.2 else s.2 + 1)

/-- Run a sequence of operations from the initial state. -/
def ringRun (cap : Nat) (ops : List RingOp) : CircBuf × Nat :=
  ops.foldl ringStep (CircBuf.init cap, 0)

/-! ## Frame extraction, `command_handler.cpp` (`GetFrame`)

`GetFrame` runs with the receive interrupt masked for its whole body:
`__disable_irq()` on entry and `__enable_irq()` immediately before every
return.  To reason about the extent of that critical section, the embedding
returns, besides the result and the updated buffer, the list of events the
call performs: interrupt mask changes and reads of the buffer *contents*
(`buf[i]`; pure index reads and comparisons are not recorded). -/

/-- An observable step of `GetFrame`: interrupt masking or a read of a
buffer byte. -/
inductive Event where
  | irqOff
  | irqOn
  | readBuf (i : Nat)
deriving DecidableEq, Repr

/-- Distance from `a` forward to `b` stepping `+1 (mod cap)`; the exact
iteration count of a scan loop running from `a` to `b`. -/
def dist (cap a b : Nat) : Nat := if a ≤ b then b - a else b + cap - a

/-- First loop of `GetFrame`: `while (buf[tail] != BEGIN_FRAME_BYTE && tail != head)`.
Each condition check reads `buf[tail]`; fuel is `dist cap tail head`, which
reaches 0 exactly when `tail = head`. -/
def scanBegin (buf : List Nat) (cap : Nat) : Nat → Nat → Nat × List Event
  | 0, tail => (tail, [.readBuf tail])
  | fuel + 1, tail =>
    if buf.getD tail 0 = BEGIN_FRAME_BYTE then (tail, [.readBuf tail])
    else
      let r := scanBegin buf cap fuel ((tail + 1) % cap)
      (r.1, .readBuf tail :: r.2)

/-- Result of the second `GetFrame` loop. -/
inductive ScanEnd where
  | hitBegin (idx : Nat)
  | stopped (idx : Nat)
deriving DecidableEq, Repr

/-- Second loop of `GetFrame`: from `tail + 1`, scan for `END_FRAME_BYTE`,
abandon to a fresh `BEGIN_FRAME_BYTE` if one is found first; stop at `head`
(fuel 0). -/
def scanEnd (buf : List Nat) (cap : Nat) : Nat → Nat → ScanEnd × List Event
  | 0, idx => (.stopped idx, [])
  | fuel + 1, idx =>
    if buf.getD idx 0 = END_FRAME_BYTE then (.stopped idx, [.readBuf idx])
    else if buf.getD idx 0 = BEGIN_FRAME_BYTE then (.hitBegin idx, [.readBuf idx])
    else
      let r := scanEnd buf cap fuel ((idx + 1) % cap)
      (r.1, .readBuf idx :: r.2)

/-- Outcome of the decode loop of `Frame::deserialize_from(ICircularBuffer&)`. -/
inductive RingDecode where
  | err (e : DeserializeError)
  | atEnd (idx : Nat) (dec : StaticVec Nat)

/-- The decode loop of `Frame::deserialize_from(ICircularBuffer&)`: read byte
pairs, break on a raw `END_FRAME_BYTE`, decode and collect otherwise.  Fuel
bounds the iterations by the distance from the start index to the final
index `head2`; the source relies on the caller-guaranteed `END_FRAME_BYTE`
for termination. -/
def ringDecodeLoop (buf : List Nat) (cap head2 : Nat) :
    Nat → Nat → StaticVec Nat → RingDecode × List Event
  | 0, idx, dec => (.atEnd idx dec, [])
  | fuel + 1, idx, dec =>
    if idx = head2 then (.atEnd idx dec, [])
    else
      let w0 := buf.getD idx 0
      let w1 := buf.getD ((idx + 1) % cap) 0
      let evs := [Event.readBuf idx, Event.readBuf ((idx + 1) % cap)]
      if w0 = END_FRAME_BYTE then (.atEnd idx dec, evs)
      else
        match decode_byte [w0, w1] with
        | .error e => (.err e, evs)
        | .ok (b, read) =>
          let (r, dec') := dec.push_back b
          match r with
          | some _ => (.err DataTooBig, evs)
          | none =>
            let res := ringDecodeLoop buf cap head2 fuel ((idx + read) % cap) dec'
            (res.1, evs ++ res.2)

/-- The default-constructed `Frame frame;` of `GetFrame` (members modelled
zero-initialised). -/
def frame0 : Frame := ⟨0, 0, StaticVec.empty Nat FRAME_DATA_MAX_SIZE⟩

/-- The receive ring buffer as `GetFrame` sees it (same data as `CircBuf`;
named separately to mirror the `gRxBuffer` role). -/
abbrev RxState := CircBuf

/-- The final scan index of the buffer-based deserializer:
`head2 = (head ? head : cap) - 1`, the index of the last element before the
producer cursor. -/
def ringHead2 (st : RxState) : Nat := (if st.head ≠ 0 then st.head else st.cap) - 1

/-- `Frame::deserialize_from(ICircularBuffer&)`: check `buf[tail]` is
`BEGIN_FRAME_BYTE` and `getSize() ≥ FRAME_MIN_SIZE`, then decode the window
from `tail + 1` up to `ringHead2`, and parse the decoded bytes. -/
def deserialize_fromRing (st : RxState) : DeserializeError × Frame × List Event :=
  if st.buf.getD st.tail 0 ≠ BEGIN_FRAME_BYTE then
    (InvalidStartByte, frame0, [.readBuf st.tail])
  else if st.getSize < FRAME_MIN_SIZE then (UnexpectedEOF, frame0, [.readBuf st.tail])
  else
    let head2 := ringHead2 st
    let idx0 := (st.tail + 1) % st.cap
    let r := ringDecodeLoop st.buf st.cap head2 (dist st.cap idx0 head2) idx0
      (StaticVec.empty Nat (FRAME_MAX_SIZE - 2))
    match r.1 with
    | .err e => (e, frame0, .readBuf st.tail :: r.2)
    | .atEnd idx dec =>
      if st.buf.getD idx 0 = END_FRAME_BYTE then
        let d := frame0.deserialize_from_decoded dec.items
        (d.1, d.2, .readBuf st.tail :: r.2 ++ [.readBuf idx])
      else (UnexpectedEOF, frame0, .readBuf st.tail :: r.2 ++ [.readBuf idx])

/-- `GetFrame`: disable interrupts, advance `tail` to the next
`BEGIN_FRAME_BYTE`, look for an unescaped `END_FRAME_BYTE` (abandoning to a
newer `BEGIN_FRAME_BYTE` if one appears first), decode the completed window,
consume it, re-enable interrupts.  Returns the extracted frame (if any), the
updated buffer state, and the event trace. -/
def GetFrame (st : RxState) : Option Frame × RxState × List Event :=
  let s1 := scanBegin st.buf st.cap (dist st.cap st.tail st.head) st.tail
  let tail1 := s1.1
  if tail1 = st.head then
    (none, { st with tail := tail1 }, .irqOff :: s1.2 ++ [.irqOn])
  else
    let idx0 := (tail1 + 1) % st.cap
    let s2 := scanEnd st.buf st.cap (dist st.cap idx0 st.head) idx0
    match s2.1 with
    | .hitBegin j =>
      (none, { st with tail := j }, .irqOff :: s1.2 ++ s2.2 ++ [.irqOn])
    | .stopped j =>
      if st.head = j ∨ st.buf.getD j 0 ≠ END_FRAME_BYTE then
        (none, { st with tail := tail1 }, .irqOff :: s1.2 ++ s2.2 ++ [.irqOn])
      else
        let d := deserialize_fromRing { st with tail := tail1 }
        let st' := { st with tail := (j + 1) % st.cap }
        ((if d.1 = DeserializeOk then some d.2.1 else none), st',
          .irqOff :: s1.2 ++ s2.2 ++ d.2.2 ++ [.irqOn])

/-- Number of buffer-content reads a trace performs while the interrupt is
masked (mask state starts clear and follows `irqOff` / `irqOn` events). -/
def readsWhileMasked (tr : List Event) : Nat :=
  (tr.foldl
    (fun (s : Bool × Nat) e =>
      match e with
      | .irqOff => (true, s.2)
      | .irqOn => (false, s.2)
      | .readBuf _ => (s.1, if s.1 then s.2 + 1 else s.2))
    (false, 0)).2

/-! ## Command layer, `command_handler.cpp` / `commands.cpp`

Tokens and response buffers are byte lists; the device state gathers the
globals the handlers touch (`gDeviceState`, the timer's auto-reload register
`ARR` of `htim2`, and the clock-derived constant `TIMER_FREQ`).

The C++ source computes `arr = TIMER_FREQ / value` *before* testing
`value == 0`; a division whose divisor is zero is undefined behaviour in
C++ (the Cortex-M `UDIV` instruction yields 0).  Each handler therefore
additionally returns a `Bool` recording whether it evaluated a division
with divisor zero, so the order of the check and the division is
observable in the model. -/

/-- `LOCAL_ID = 100` from `command_handler.h`. -/
def LOCAL_ID : Nat := 100

/-- Bytes of an ASCII string literal. -/
def strBytes (s : String) : List Nat := s.data.map Char.toNat

def kUnknownCommand : List Nat := strBytes "UNKNOWN_COMMAND"
def kInvalidArgument : List Nat := strBytes "INVALID_ARGUMENT"
def kPwmOn : List Nat := strBytes "PWM_ON"
def kPwmOff : List Nat := strBytes "PWM_OFF"
def kFreqChanged : List Nat := strBytes "FREQ_CHANGED"
def kDutyCyclesChanged : List Nat := strBytes "DUTY_CYCLES_CHANGED"
def kInvalidFrequency : List Nat := strBytes "INVALID_FREQUENCY"
def kInvalidDutyCycle : List Nat := strBytes "INVALID_DUTY_CYCLE"
def kStatusResp : List Nat := strBytes "STATUS_RESP"

/-- The device/timer state the command handlers read and mutate. -/
structure SysState where
  timerFreq : Nat
  arrReg : Nat
  dutyCycles : List Nat
  userDutyCycles : List Nat
  isPwmGenerated : Bool
deriving DecidableEq, Repr

/-- `std::from_chars` on an unsigned 32-bit target with the caller's
full-match test: the token must be non-empty, all decimal digits, and fit in
`uint32_t` (out-of-range makes `from_chars` report an error). -/
def parseU32 (tok : List Nat) : Option Nat :=
  if tok ≠ [] ∧ tok.all (fun c => 48 ≤ c ∧ c ≤ 57) then
    let v := tok.foldl (fun a c => a * 10 + (c - 48)) 0
    if v < 2 ^ 32 then some v else none
  else none

/-- `printf %d` of a `uint32_t` argument: the value is reinterpreted as a
signed 32-bit `int`. -/
def printfD (n : Nat) : String :=
  if n < 2 ^ 31 then toString (n : Int) else toString ((n : Int) - 2 ^ 32)

/-- `StartPWM`: set the generation flag (the DMA start is external). -/
def StartPWM (st : SysState) : SysState := { st with isPwmGenerated := true }

/-- `StopPWM`: clear the generation flag. -/
def StopPWM (st : SysState) : SysState := { st with isPwmGenerated := false }

/-- `SetArr`: program the auto-reload register with `arr - 1`. -/
def SetArr (st : SysState) (arr : Nat) : SysState := { st with arrReg := arr - 1 }

/-- Result of one command handler: new state, appended response bytes, and
whether a division with divisor zero was evaluated. -/
abbrev CmdResult := SysState × List Nat × Bool

/-- `CmdPwmOn`. -/
def CmdPwmOn (st : SysState) (_args : List (List Nat)) : CmdResult :=
  (if !st.isPwmGenerated then StartPWM st else st, kPwmOn, false)

/-- `CmdPwmOff`. -/
def CmdPwmOff (st : SysState) (_args : List (List Nat)) : CmdResult :=
  (if st.isPwmGenerated then StopPWM st else st, kPwmOff, false)

/-- `CmdSetFreq`: parse `args[1]`; compute `arr = TIMER_FREQ / value` (before
the zero test, exactly as the source does); reject `arr == 0 || value == 0`;
otherwise reprogram the timer, rescale the stored duty cycles and answer
`FREQ_CHANGED <value>`. -/
def CmdSetFreq (st : SysState) (args : List (List Nat)) : CmdResult :=
  match parseU32 (args.getD 1 []) with
  | none => (st, kInvalidArgument, false)
  | some value =>
    -- `std::uint32_t arr = TIMER_FREQ / value;` — evaluated before the test
    let dbz := decide (value = 0)
    let arr := st.timerFreq / value
    if arr = 0 ∨ value = 0 then (st, kInvalidFrequency, dbz)
    else
      let restore := st.isPwmGenerated
      let st := if st.isPwmGenerated then StopPWM st else st
      let st := SetArr st arr
      let st := { st with
        dutyCycles := (List.range st.userDutyCycles.length).foldl
          (fun dc i => dc.set i (st.userDutyCycles.getD i 0 * arr / 100 % 2 ^ 32))
          st.dutyCycles }
      let st := if restore then StartPWM st else st
      (st, kFreqChanged ++ strBytes (" " ++ printfD value), dbz)

/-- The parse loop of `CmdSetDutyCycles` over `args[1..]`: all tokens must
parse as `uint32_t`. -/
def parseAllU32 : List (List Nat) → Option (List Nat)
  | [] => some []
  | t :: ts =>
    match parseU32 t with
    | none => none
    | some v =>
      match parseAllU32 ts with
      | none => none
      | some vs => some (v :: vs)

/-- `CmdSetDutyCycles`: parse every argument (`INVALID_ARGUMENT` on the first
failure), reject the whole request if any value exceeds 100
(`INVALID_DUTY_CYCLE`, prior state untouched), otherwise replace both stored
duty-cycle lists and echo the arguments. -/
def CmdSetDutyCycles (st : SysState) (args : List (List Nat)) : CmdResult :=
  match parseAllU32 (args.drop 1) with
  | none => (st, kInvalidArgument, false)
  | some params =>
    let arr := (st.arrReg + 1) % 2 ^ 32
    -- `std::any_of` over the params: `(dutyCycle < 0) | (dutyCycle > 100)`
    if params.any (fun d => d > 100) then (st, kInvalidDutyCycle, false)
    else
      let st := { st with
        dutyCycles := params.map (fun d => d * arr / 100 % 2 ^ 32),
        userDutyCycles := params.map (fun d => d % 256) }
      -- Stop/Start around the assignment when generating; flag is net-unchanged
      (st, (args.drop 1).foldl (fun r t => r ++ [32] ++ t) kDutyCyclesChanged, false)

/-- `CmdStatus`: report the generation flag, the recomputed frequency and the
scaled duty cycles. -/
def CmdStatus (st : SysState) (_args : List (List Nat)) : CmdResult :=
  let arr := (st.arrReg + 1) % 2 ^ 32
  let freq := st.timerFreq / arr
  let ret := kStatusResp
    ++ strBytes (" " ++ String.mk [Char.ofNat (48 + (if st.isPwmGenerated then 1 else 0))])
    ++ strBytes (" " ++ printfD freq)
    ++ (st.dutyCycles.foldl
        (fun r cnt => r ++ strBytes (" " ++ printfD (cnt * 100 / arr % 2 ^ 32))) [])
  (st, ret, decide (arr = 0))

/-- `struct CommandHandler`. -/
structure CommandHandler where
  commandName : List Nat
  callback : SysState → List (List Nat) → CmdResult
  minArgs : Nat
  maxArgs : Nat

/-- `kCommandHandlers`. -/
def kCommandHandlers : List CommandHandler :=
  [ ⟨strBytes "ON", CmdPwmOn, 0, 0⟩,
    ⟨strBytes "OFF", CmdPwmOff, 0, 0⟩,
    ⟨strBytes "SET_FREQ", CmdSetFreq, 1, 1⟩,
    ⟨strBytes "SET_DUTY_CYCLES", CmdSetDutyCycles, 1, 312⟩,
    ⟨strBytes "STATUS", CmdStatus, 0, 0⟩ ]

/-- `Split`: split on the delimiter, producing every chunk (empty ones
included), as the `std::find`-based loop does. -/
def Split (delim : Nat) : List Nat → List (List Nat)
  | [] => [[]]
  | b :: tl =>
    if b = delim then [] :: Split delim tl
    else
      match Split delim tl with
      | ch :: chs => (b :: ch) :: chs
      | [] => [[b]]

/-- `ParseCommands`: split the payload on spaces, keep the non-empty tokens,
return `none` when no token remains. -/
def ParseCommands (data : List Nat) : Option (List (List Nat)) :=
  let args := (Split 32 data).filter (fun c => !c.isEmpty)
  if args.length > 0 then some args else none

/-- `ExecuteCommand`: look the command up by its first token, check the arity
range, run the handler; `UNKNOWN_COMMAND` / `INVALID_ARGUMENT` otherwise. -/
def ExecuteCommand (st : SysState) (args : List (List Nat)) : CmdResult :=
  if args.length = 0 then (st, kUnknownCommand, false)
  else
    match kCommandHandlers.find? (fun h => h.commandName == args.getD 0 []) with
    | none => (st, kUnknownCommand, false)
    | some h =>
      if h.minArgs ≤ args.length - 1 ∧ h.maxArgs ≥ args.length - 1 then h.callback st args
      else (st, kInvalidArgument, false)

/-- `SendData` (`usart_tx_handler.cpp`): build a response frame from
`LOCAL_ID` to `receiver`, staging the payload with `push_slice`; serialize it
into a `StaticVec<uint8_t, FRAME_MAX_SIZE * 2>` and hand it to the UART (the
byte-level transmit path is external — the model records the frame sent).
On a serialization error the function returns without sending. -/
def SendData (receiver : Nat) (data : List Nat) : List Frame :=
  let fr : Frame :=
    { sender := LOCAL_ID, receiver := receiver,
      data := ((StaticVec.empty Nat FRAME_DATA_MAX_SIZE).push_slice data).2 }
  let r := fr.serialize_into (StaticVec.empty Nat (FRAME_MAX_SIZE * 2))
  if r.1 = SerializeOk then [fr] else []

/-- One iteration body of `HandlePendingCommands` for an already-extracted
frame: skip frames addressed elsewhere, parse the payload into tokens, and,
when at least one token results, execute the command and send the response
to the frame's sender.  Returns the new state and the response frames sent. -/
def HandleFrame (st : SysState) (f : Frame) : SysState × List Frame :=
  if f.receiver ≠ LOCAL_ID then (st, [])
  else
    match ParseCommands f.data.items with
    | none => (st, [])
    | some args =>
      let r := ExecuteCommand st args
      (r.1, SendData f.sender r.2.1)

/-! ## Specification-side helpers

Plain-list counterparts of the encoding pipeline, used to state and prove
the theorems (each is related to the vector-threading source embedding by a
lemma below). -/

/-- The escaped image of one byte, as a plain list. -/
def escByte (b : Nat) : List Nat :=
  match ESCAPE_TABLE.find? (fun e => e.1 == b) with
  | some e => [ESCAPE_BYTE, e.2]
  | none => [b]

/-- The escaped image of a byte sequence. -/
def escList (l : List Nat) : List Nat := l.flatMap escByte

/-- The unescaped field bytes of a frame: sender, receiver, big-endian
16-bit payload length, payload. -/
def fieldsPlain (f : Frame) : List Nat :=
  to_be_bytes 1 f.sender ++ to_be_bytes 1 f.receiver ++
    to_be_bytes 2 f.data.items.length ++ f.data.items

/-- Zero-pad a byte list to a multiple of four (the CRC input padding). -/
def pad4 (l : List Nat) : List Nat := l ++ List.replicate ((4 - l.length % 4) % 4) 0

/-- The complete wire image of a frame: `BEGIN`, escaped fields, escaped
big-endian CRC32, `END`. -/
def wireBytes (f : Frame) : List Nat :=
  BEGIN_FRAME_BYTE :: (escList (fieldsPlain f) ++
    escList (to_be_bytes 4 f.crc32) ++ [END_FRAME_BYTE])

/-- The number of unconsumed bytes a ring-buffer state with consumer index
`a` and producer index `b` holds (`dist` is also the exact iteration count
of a scan from `a` to `b`). -/
def ringCount (c : CircBuf) : Nat := dist c.cap c.tail c.head

/-! ## Basic lemmas about the container embeddings -/

theorem StaticVec.eta {α} (v : StaticVec α) : (⟨v.cap, v.items⟩ : StaticVec α) = v := rfl

theorem pushSliceLoop_eq {α} (v : StaticVec α) (data : List α) :
    pushSliceLoop v data = ⟨v.cap, v.items ++ data.take (v.cap - v.items.length)⟩ := by
  induction data generalizing v with
  | nil => simp [pushSliceLoop]
  | cons a rest ih =>
    by_cases h : v.items.length < v.cap
    · have hpush : v.push_back a = (none, ⟨v.cap, v.items ++ [a]⟩) := by
        simp [StaticVec.push_back, h]
      have hk : v.cap - v.items.length = (v.cap - (v.items.length + 1)) + 1 := by omega
      simp only [pushSliceLoop, hpush, ih]
      simp [hk, List.take_succ_cons]
    · have hpush : v.push_back a = (some a, v) := by
        simp [StaticVec.push_back, h]
      have hk : v.cap - v.items.length = 0 := by omega
      simp [pushSliceLoop, hpush, hk]

theorem push_slice_eq {α} (v : StaticVec α) (data : List α) :
    v.push_slice data = (0, ⟨v.cap, v.items ++ data.take (v.cap - v.items.length)⟩) := by
  simp [StaticVec.push_slice, pushSliceLoop_eq]

/-- When there is room for the whole slice, `push_slice` appends it all. -/
theorem push_slice_all {α} (v : StaticVec α) (data : List α)
    (h : v.items.length + data.length ≤ v.cap) :
    v.push_slice data = (0, ⟨v.cap, v.items ++ data⟩) := by
  rw [push_slice_eq, List.take_of_length_le (by omega)]

/-! ## Claim C10: `push_slice` appends in order, stops at the first rejected
push, and always returns 0 -/

/-- C10.  `IStaticVec::push_slice` appends the input elements one by one in
order, stopping at the first rejected push — so the resulting contents are
the old contents followed by exactly the prefix of the input that fits, and
the size never exceeds the capacity — and its return value is 0 regardless
of how many elements were actually appended, so no caller (such as
`SendData`) can detect truncation from it. -/
theorem c10_push_slice_returns_zero {α} (v : StaticVec α) (data : List α) :
    (v.push_slice data).1 = 0 ∧
    (v.push_slice data).2.items = v.items ++ data.take (v.cap - v.items.length) ∧
    (v.items.length ≤ v.cap → (v.push_slice data).2.items.length ≤ v.cap) := by
  refine ⟨by rw [push_slice_eq], by rw [push_slice_eq], fun hwf => ?_⟩
  rw [push_slice_eq]
  simp only [List.length_append, List.length_take]
  omega

/-- C10 witness: a vector of capacity 2 holding one element receives a
3-element slice: one element fits, the count returned is still 0. -/
theorem c10_witness :
    ((⟨2, [9]⟩ : StaticVec Nat).push_slice [1, 2, 3]).1 = 0 ∧
    ((⟨2, [9]⟩ : StaticVec Nat).push_slice [1, 2, 3]).2.items = [9, 1] ∧
    ((⟨2, [9]⟩ : StaticVec Nat).push_slice [1, 2, 3]).2.items.length ≤ 2 :=
  ⟨(c10_push_slice_returns_zero ⟨2, [9]⟩ [1, 2, 3]).1, by decide,
    (c10_push_slice_returns_zero ⟨2, [9]⟩ [1, 2, 3]).2.2 (by decide)⟩

/-! ## Claim C5: the value of `FRAME_DATA_MAX_SIZE` -/

/-- C5 counterexample: `FRAME_DATA_MAX_SIZE` is defined as
`FRAME_MAX_SIZE - FRAME_MIN_SIZE - 2 = 1268`, not `FRAME_MAX_SIZE - 10 = 1270`. -/
theorem c5_counterexample :
    FRAME_DATA_MAX_SIZE ≠ FRAME_MAX_SIZE - 10 ∧ FRAME_DATA_MAX_SIZE = 1268 := by decide

/-- C5 (amended).  `FRAME_DATA_MAX_SIZE = FRAME_MAX_SIZE − 12 = 1268`; it is
the maximum payload length accepted by `serialize_into` (larger payloads are
rejected with `FrameTooLongError`) and by deserialization (larger declared
lengths are rejected with `DataTooBig`). -/
theorem c5_amended :
    FRAME_DATA_MAX_SIZE = FRAME_MAX_SIZE - 12 ∧ FRAME_DATA_MAX_SIZE = 1268 ∧
    (∀ (f : Frame) (out : StaticVec Nat), f.data.items.length > FRAME_DATA_MAX_SIZE →
      f.serialize_into out = (FrameTooLongError, out)) ∧
    (∀ (g : Frame) (s r hi lo : Nat) (rest : List Nat), hi * 256 + lo > FRAME_DATA_MAX_SIZE →
      (g.deserialize_from_decoded (s :: r :: hi :: lo :: rest)).1 = DataTooBig) := by
  refine ⟨by decide, by decide, fun f out h => ?_, fun g s r hi lo rest h => ?_⟩
  · simp [Frame.serialize_into, h]
  · have h1 : deserializeField (s :: r :: hi :: lo :: rest) 0 1 = .ok (s, 1) := by
      unfold deserializeField
      rw [if_neg (by simp)]
      simp [from_be_bytes]
    have h2 : deserializeField (s :: r :: hi :: lo :: rest) 1 1 = .ok (r, 2) := by
      unfold deserializeField
      rw [if_neg (by simp)]
      simp [from_be_bytes]
    have h3 : deserializeField (s :: r :: hi :: lo :: rest) 2 2 = .ok (hi * 256 + lo, 4) := by
      unfold deserializeField
      rw [if_neg (by simp)]
      simp [from_be_bytes]
    simp only [Frame.deserialize_from_decoded, h1, h2, h3]
    rw [if_pos h]

/-- C5 witness: a frame with a 1269-byte payload is rejected by
`serialize_into`, and a declared length of `0xFFFF` is rejected by
`deserialize_from_decoded` with `DataTooBig`. -/
theorem c5_witness :
    ((⟨1, 2, ⟨FRAME_DATA_MAX_SIZE, List.replicate 1269 0⟩⟩ : Frame).serialize_into
        (StaticVec.empty Nat 2560) = (FrameTooLongError, StaticVec.empty Nat 2560)) ∧
    (frame0.deserialize_from_decoded (1 :: 2 :: 255 :: 255 :: [])).1 = DataTooBig :=
  ⟨(c5_amended.2.2.1 _ _ (by norm_num [FRAME_DATA_MAX_SIZE, FRAME_MAX_SIZE, FRAME_MIN_SIZE])),
    (c5_amended.2.2.2 frame0 1 2 255 255 [] (by decide))⟩

/-! ## Claim C4: ring-buffer emptiness, occupancy count and usable capacity -/

/-- `(h + 1) % cap` for in-range `h`, as an `if`. -/
theorem mod_succ_eq {h cap : Nat} (hlt : h < cap) :
    (h + 1) % cap = if h + 1 = cap then 0 else h + 1 := by
  by_cases hc : h + 1 = cap
  · rw [if_pos hc, hc, Nat.mod_self]
  · rw [if_neg hc]
    exact Nat.mod_eq_of_lt (by omega)

/-- One `ringStep` preserves the index bounds and keeps the ghost byte count
equal to the index distance `dist cap tail head`. -/
theorem mod_succ_cases {h cap : Nat} (hlt : h < cap) :
    ((h + 1) % cap = 0 ∧ h + 1 = cap) ∨ ((h + 1) % cap = h + 1 ∧ h + 1 < cap) := by
  by_cases hc : h + 1 = cap
  · exact Or.inl ⟨by rw [hc, Nat.mod_self], hc⟩
  · exact Or.inr ⟨Nat.mod_eq_of_lt (by omega), by omega⟩

/-- `push_head` either accepts (advancing `head`) or rejects on a full
buffer, depending on whether the advanced head collides with `tail`. -/
theorem push_head_cases (c : CircBuf) (v : Nat) :
    (c.push_head v =
        (none, { c with buf := c.buf.set c.head v, head := (c.head + 1) % c.cap }) ∧
      (c.head + 1) % c.cap ≠ c.tail) ∨
    (c.push_head v = (some v, c) ∧ (c.head + 1) % c.cap = c.tail) := by
  unfold CircBuf.push_head
  by_cases h : (c.head + 1) % c.cap ≠ c.tail
  · exact Or.inl ⟨by rw [if_pos h], h⟩
  · exact Or.inr ⟨by rw [if_neg h], by omega⟩

/-- `pop_tail` either yields the byte at `tail` (advancing `tail`) or `none`
on an empty buffer. -/
theorem pop_tail_cases (c : CircBuf) :
    (c.pop_tail = (some (c.buf.getD c.tail 0), { c with tail := (c.tail + 1) % c.cap }) ∧
      c.tail ≠ c.head) ∨
    (c.pop_tail = (none, c) ∧ c.tail = c.head) := by
  unfold CircBuf.pop_tail
  by_cases h : c.tail ≠ c.head
  · exact Or.inl ⟨by rw [if_pos h], h⟩
  · exact Or.inr ⟨by rw [if_neg h], by omega⟩

/-- `advance_head` either collides with `tail` (dropping the oldest byte) or
just advances `head`. -/
theorem advance_head_cases (c : CircBuf) :
    (c.advance_head =
        { c with head := (c.head + 1) % c.cap, tail := (c.tail + 1) % c.cap } ∧
      (c.head + 1) % c.cap = c.tail) ∨
    (c.advance_head = { c with head := (c.head + 1) % c.cap } ∧
      (c.head + 1) % c.cap ≠ c.tail) := by
  unfold CircBuf.advance_head
  by_cases h : (c.head + 1) % c.cap = c.tail
  · exact Or.inl ⟨by rw [if_pos h], h⟩
  · exact Or.inr ⟨by rw [if_neg h], h⟩

/-- One `ringStep` preserves the index bounds and keeps the ghost byte count
equal to the index distance `dist cap tail head`. -/
theorem ringStep_inv (op : RingOp) (c : CircBuf) (n cap : Nat) (hc : c.cap = cap)
    (hh : c.head < cap) (ht : c.tail < cap) (hn : n = dist cap c.tail c.head) :
    (ringStep (c, n) op).1.cap = cap ∧
    (ringStep (c, n) op).1.head < cap ∧
    (ringStep (c, n) op).1.tail < cap ∧
    (ringStep (c, n) op).2 =
      dist cap (ringStep (c, n) op).1.tail (ringStep (c, n) op).1.head := by
  subst hc
  unfold dist at hn ⊢
  cases op with
  | push v =>
    rcases mod_succ_cases hh with ⟨hm, hcm⟩ | ⟨hm, hcm⟩ <;>
      rcases push_head_cases c v with ⟨heq, hcond⟩ | ⟨heq, hcond⟩ <;>
        rw [hm] at hcond <;> (try rw [hm] at heq) <;>
          simp only [ringStep, heq] <;> dsimp only [Option.isNone] <;>
            split_ifs at hn ⊢ <;> first | omega | (simp_all <;> omega)
  | pop =>
    rcases mod_succ_cases ht with ⟨hm, hcm⟩ | ⟨hm, hcm⟩ <;>
      rcases pop_tail_cases c with ⟨heq, hcond⟩ | ⟨heq, hcond⟩ <;>
        (try rw [hm] at heq) <;>
          simp only [ringStep, heq] <;> dsimp only [Option.isSome] <;>
            split_ifs at hn ⊢ <;> first | omega | (simp_all <;> omega)
  | advance =>
    rcases mod_succ_cases hh with ⟨hm, hcm⟩ | ⟨hm, hcm⟩ <;>
      rcases mod_succ_cases ht with ⟨hm2, hcm2⟩ | ⟨hm2, hcm2⟩ <;>
        rcases advance_head_cases c with ⟨heq, hcond⟩ | ⟨heq, hcond⟩ <;>
          rw [hm] at hcond <;> (try rw [hm] at heq) <;> (try rw [hm2] at heq) <;>
            simp only [ringStep, heq, hm] <;>
              split_ifs at hn ⊢ <;> first | omega | (simp_all <;> omega)

/-- The `ringStep_inv` invariant transported along any operation sequence. -/
theorem ringFold_inv (ops : List RingOp) (c : CircBuf) (n cap : Nat) (hc : c.cap = cap)
    (hh : c.head < cap) (ht : c.tail < cap) (hn : n = dist cap c.tail c.head) :
    (ops.foldl ringStep (c, n)).1.cap = cap ∧
    (ops.foldl ringStep (c, n)).1.head < cap ∧
    (ops.foldl ringStep (c, n)).1.tail < cap ∧
    (ops.foldl ringStep (c, n)).2 =
      dist cap (ops.foldl ringStep (c, n)).1.tail (ops.foldl ringStep (c, n)).1.head := by
  induction ops generalizing c n with
  | nil => exact ⟨hc, hh, ht, hn⟩
  | cons op ops ih =>
    obtain ⟨h1, h2, h3, h4⟩ := ringStep_inv op c n cap hc hh ht hn
    simpa only [List.foldl_cons] using
      ih (ringStep (c, n) op).1 (ringStep (c, n) op).2 h1 h2 h3 h4

/-- C4 (amended).  Starting from the initial state, after any sequence of
`push_head` / `pop_tail` / `advance_head` operations: the buffer holds zero
unconsumed bytes iff `head = tail`; it never holds more than `capacity − 1`
bytes; and `getSize` reports the number of bytes held whenever the buffer is
non-empty — but when `head = tail` (empty buffer) `getSize` returns the full
capacity `SIZE`, not 0. -/
theorem c4_amended (cap : Nat) (ops : List RingOp) (hcap : 0 < cap) :
    ((ringRun cap ops).2 = 0 ↔ (ringRun cap ops).1.head = (ringRun cap ops).1.tail) ∧
    (ringRun cap ops).2 ≤ cap - 1 ∧
    ((ringRun cap ops).1.head ≠ (ringRun cap ops).1.tail →
      (ringRun cap ops).1.getSize = (ringRun cap ops).2) ∧
    ((ringRun cap ops).1.head = (ringRun cap ops).1.tail →
      (ringRun cap ops).1.getSize = cap) := by
  obtain ⟨h1, h2, h3, h4⟩ :=
    ringFold_inv ops (CircBuf.init cap) 0 cap rfl hcap hcap (by simp [dist, CircBuf.init])
  rw [ringRun] at *
  unfold dist at h4
  unfold CircBuf.getSize
  rw [h1]
  constructor
  · split_ifs at h4 <;> omega
  refine ⟨?_, fun hne => ?_, fun heq => ?_⟩
  · split_ifs at h4 <;> omega
  · split_ifs at h4 ⊢ <;> omega
  · split_ifs at h4 ⊢ <;> omega

/-- C4 counterexample: in the initial state the buffer holds 0 bytes and
`head = tail`, yet `getSize` reports the full capacity (8 here), not 0 —
refuting "the reported occupied count … is 0 when head == tail". -/
theorem c4_counterexample :
    (ringRun 8 []).1.head = (ringRun 8 []).1.tail ∧ (ringRun 8 []).2 = 0 ∧
    (ringRun 8 []).1.getSize = 8 := by decide

/-- C4 witness: two pushes and a pop on a capacity-8 buffer leave one byte;
the amended invariants hold there. -/
theorem c4_witness :
    ((ringRun 8 [.push 5, .push 6, .pop]).2 = 0 ↔
      (ringRun 8 [.push 5, .push 6, .pop]).1.head = (ringRun 8 [.push 5, .push 6, .pop]).1.tail) ∧
    (ringRun 8 [.push 5, .push 6, .pop]).2 ≤ 7 ∧
    ((ringRun 8 [.push 5, .push 6, .pop]).1.head ≠ (ringRun 8 [.push 5, .push 6, .pop]).1.tail →
      (ringRun 8 [.push 5, .push 6, .pop]).1.getSize = (ringRun 8 [.push 5, .push 6, .pop]).2) ∧
    ((ringRun 8 [.push 5, .push 6, .pop]).1.head = (ringRun 8 [.push 5, .push 6, .pop]).1.tail →
      (ringRun 8 [.push 5, .push 6, .pop]).1.getSize = 8) :=
  c4_amended 8 [.push 5, .push 6, .pop] (by decide)

/-! ## Claim C3: `SET_FREQ 0` and the order of the division and the zero test -/

/-- C3: `CmdSetFreq` on any argument list whose frequency token parses to 0
answers `INVALID_FREQUENCY` and leaves the state unchanged — but the
division `TIMER_FREQ / value` is evaluated *before* the `value == 0` test,
so a division with divisor zero is performed (the returned flag is `true`),
contradicting the claim that the rejection of 0 precedes any divisor
computation. -/
theorem c3_set_freq_zero (st : SysState) (args : List (List Nat))
    (hp : parseU32 (args.getD 1 []) = some 0) :
    CmdSetFreq st args = (st, kInvalidFrequency, true) := by
  unfold CmdSetFreq
  rw [hp]
  simp

/-- C3 witness: the concrete request `SET_FREQ 0` evaluates the division by
zero (flag `true`) and then answers `INVALID_FREQUENCY`. -/
theorem c3_witness :
    CmdSetFreq ⟨64000000, 999, [0], [], false⟩ [strBytes "SET_FREQ", strBytes "0"] =
      (⟨64000000, 999, [0], [], false⟩, kInvalidFrequency, true) :=
  c3_set_freq_zero ⟨64000000, 999, [0], [], false⟩ [strBytes "SET_FREQ", strBytes "0"]
    (by decide)

/-! ## Claim C6: `SET_DUTY_CYCLES` all-or-nothing rejection -/

/-- C6.  For every prior state and every `SET_DUTY_CYCLES` request whose
argument tokens all parse as `uint32_t` and at least one parsed value
exceeds 100, the handler answers `INVALID_DUTY_CYCLE` and returns the state
exactly as it was — both the stored duty-cycle set and the stored user
duty-cycle percentages are untouched. -/
theorem c6_duty_cycles_atomic (st : SysState) (name : List Nat)
    (rest : List (List Nat)) (params : List Nat)
    (hp : parseAllU32 rest = some params) (hbad : ∃ d ∈ params, 100 < d) :
    CmdSetDutyCycles st (name :: rest) = (st, kInvalidDutyCycle, false) := by
  have hany : params.any (fun d => d > 100) = true := by
    rw [List.any_eq_true]
    obtain ⟨d, hd, hgt⟩ := hbad
    exact ⟨d, hd, by simpa using hgt⟩
  unfold CmdSetDutyCycles
  simp only [List.drop_succ_cons, List.drop_zero]
  rw [hp]
  simp [hany]

/-- C6 witness: `SET_DUTY_CYCLES 50 150` answers `INVALID_DUTY_CYCLE` and
leaves the state untouched. -/
theorem c6_witness :
    CmdSetDutyCycles ⟨64000000, 999, [0], [], false⟩
      [strBytes "SET_DUTY_CYCLES", strBytes "50", strBytes "150"] =
      (⟨64000000, 999, [0], [], false⟩, kInvalidDutyCycle, false) :=
  c6_duty_cycles_atomic ⟨64000000, 999, [0], [], false⟩ (strBytes "SET_DUTY_CYCLES")
    [strBytes "50", strBytes "150"] [50, 150] (by decide) ⟨150, by decide, by decide⟩

/-! ## Claim C9: a CRC mismatch leaves the frame overwritten -/

/-- A failing `deserializeField` can only report `UnexpectedEOF`. -/
theorem deserializeField_error {d : List Nat} {i k : Nat} {e : DeserializeError}
    (h : deserializeField d i k = .error e) : e = UnexpectedEOF := by
  unfold deserializeField at h
  split at h <;> simp_all

/-- C9.  Whenever `Frame::deserialize_from_decoded` returns `CRC32MissMatch`,
the target frame has already been overwritten field by field: its sender and
receiver are the parsed bytes `dec[0]`, `dec[1]`, and its payload is the
parsed payload slice of `dec` (the declared length `dec[2]*256 + dec[3]`
bytes starting at offset 4).  Deserialization is not atomic on this error. -/
theorem c9_crc_mismatch_overwrites (g : Frame) (dec : List Nat)
    (hg : g.data.cap = FRAME_DATA_MAX_SIZE)
    (h : (g.deserialize_from_decoded dec).1 = CRC32MissMatch) :
    (g.deserialize_from_decoded dec).2.sender = dec.getD 0 0 ∧
    (g.deserialize_from_decoded dec).2.receiver = dec.getD 1 0 ∧
    (g.deserialize_from_decoded dec).2.data.items =
      (dec.drop 4).take (dec.getD 2 0 * 256 + dec.getD 3 0) := by
  match dec with
  | [] => simp [Frame.deserialize_from_decoded, deserializeField] at h
  | [d0] => simp [Frame.deserialize_from_decoded, deserializeField, from_be_bytes] at h
  | [d0, d1] => simp [Frame.deserialize_from_decoded, deserializeField, from_be_bytes] at h
  | [d0, d1, d2] =>
    simp [Frame.deserialize_from_decoded, deserializeField, from_be_bytes] at h
  | d0 :: d1 :: d2 :: d3 :: rest =>
    have hf1 : deserializeField (d0 :: d1 :: d2 :: d3 :: rest) 0 1 = .ok (d0, 1) := by
      unfold deserializeField
      rw [if_neg (by simp)]
      simp [from_be_bytes]
    have hf2 : deserializeField (d0 :: d1 :: d2 :: d3 :: rest) 1 1 = .ok (d1, 2) := by
      unfold deserializeField
      rw [if_neg (by simp)]
      simp [from_be_bytes]
    have hf3 : deserializeField (d0 :: d1 :: d2 :: d3 :: rest) 2 2 =
        .ok (d2 * 256 + d3, 4) := by
      unfold deserializeField
      rw [if_neg (by simp)]
      simp [from_be_bytes]
    rw [Frame.deserialize_from_decoded] at h ⊢
    rw [hf1] at h ⊢
    dsimp only at h ⊢
    rw [hf2] at h ⊢
    dsimp only at h ⊢
    rw [hf3] at h ⊢
    dsimp only at h ⊢
    by_cases hbig : d2 * 256 + d3 > FRAME_DATA_MAX_SIZE
    · rw [if_pos hbig] at h
      simp at h
    rw [if_neg hbig] at h ⊢
    by_cases heof : 4 + (d2 * 256 + d3) ≥ (d0 :: d1 :: d2 :: d3 :: rest).length
    · rw [if_pos heof] at h
      simp at h
    rw [if_neg heof] at h ⊢
    by_cases hlen2 : 4 + (d2 * 256 + d3) + 4 > (d0 :: d1 :: d2 :: d3 :: rest).length
    · have hf4 : deserializeField (d0 :: d1 :: d2 :: d3 :: rest) (4 + (d2 * 256 + d3)) 4 =
          .error UnexpectedEOF := by
        unfold deserializeField
        rw [if_pos hlen2]
      rw [hf4] at h
      simp at h
    · have hf4 : deserializeField (d0 :: d1 :: d2 :: d3 :: rest) (4 + (d2 * 256 + d3)) 4 =
          .ok (from_be_bytes
              ((( d0 :: d1 :: d2 :: d3 :: rest).drop (4 + (d2 * 256 + d3))).take 4),
            4 + (d2 * 256 + d3) + 4) := by
        unfold deserializeField
        rw [if_neg hlen2]
      rw [hf4] at h ⊢
      dsimp only at h ⊢
      by_cases hde : 4 + (d2 * 256 + d3) + 4 ≠ (d0 :: d1 :: d2 :: d3 :: rest).length
      · rw [if_pos hde] at h
        simp at h
      rw [if_neg hde] at h ⊢
      split_ifs at h ⊢ with hcrc
      · -- the CRC32MissMatch branch: the frame fields are the parsed values
        refine ⟨rfl, rfl, ?_⟩
        have hle : ([] : List Nat).length + (List.take (d2 * 256 + d3) rest).length ≤
            g.data.cap := by
          rw [hg]
          simp only [List.length_nil, List.length_take]
          unfold FRAME_DATA_MAX_SIZE FRAME_MAX_SIZE FRAME_MIN_SIZE at hbig ⊢
          omega
        simp only [StaticVec.clear,
          show List.drop 4 (d0 :: d1 :: d2 :: d3 :: rest) = rest from rfl]
        rw [push_slice_all ⟨g.data.cap, []⟩ (List.take (d2 * 256 + d3) rest) hle]
        simp

set_option maxRecDepth 4000 in
/-- C9 witness: a concrete decoded buffer whose trailing CRC (0) disagrees:
deserialization reports `CRC32MissMatch` with sender, receiver and payload
already overwritten. -/
theorem c9_witness :
    (frame0.deserialize_from_decoded [1, 2, 0, 1, 5, 0, 0, 0, 0]).1 = CRC32MissMatch ∧
    (frame0.deserialize_from_decoded [1, 2, 0, 1, 5, 0, 0, 0, 0]).2.sender = 1 ∧
    (frame0.deserialize_from_decoded [1, 2, 0, 1, 5, 0, 0, 0, 0]).2.receiver = 2 ∧
    (frame0.deserialize_from_decoded [1, 2, 0, 1, 5, 0, 0, 0, 0]).2.data.items = [5] := by
  have h := c9_crc_mismatch_overwrites frame0 [1, 2, 0, 1, 5, 0, 0, 0, 0] rfl (by decide)
  exact ⟨by decide, by simpa using h.1, by simpa using h.2.1, by simpa using h.2.2⟩

/-! ## Claim C7: abandoning a partial frame at a newer `BEGIN` -/

/-- The first `GetFrame` loop stops immediately when `buf[tail]` is already
`BEGIN_FRAME_BYTE`. -/
theorem scanBegin_at_begin (buf : List Nat) (cap fuel tail : Nat)
    (h : buf.getD tail 0 = BEGIN_FRAME_BYTE) :
    scanBegin buf cap fuel tail = (tail, [.readBuf tail]) := by
  cases fuel with
  | zero => rfl
  | succ f => rw [scanBegin, if_pos h]

/-- The second `GetFrame` loop, started at `idx` and given enough fuel,
reports `hitBegin` at the first `BEGIN_FRAME_BYTE` it meets, provided the
`D` bytes before it are neither `BEGIN_FRAME_BYTE` nor `END_FRAME_BYTE`. -/
theorem scanEnd_hits_begin (buf : List Nat) (cap head : Nat) (D : Nat) :
    ∀ (idx fuel : Nat), idx < cap → D < fuel →
    (∀ n < D, buf.getD ((idx + n) % cap) 0 ≠ BEGIN_FRAME_BYTE ∧
              buf.getD ((idx + n) % cap) 0 ≠ END_FRAME_BYTE) →
    buf.getD ((idx + D) % cap) 0 = BEGIN_FRAME_BYTE →
    (scanEnd buf cap fuel idx).1 = .hitBegin ((idx + D) % cap) := by
  induction D with
  | zero =>
    intro idx fuel hidx hfuel hclear hbegin
    obtain ⟨f, rfl⟩ : ∃ f, fuel = f + 1 := ⟨fuel - 1, by omega⟩
    have hpos : (idx + 0) % cap = idx := by
      rw [Nat.add_zero]
      exact Nat.mod_eq_of_lt hidx
    rw [hpos] at hbegin ⊢
    rw [scanEnd, if_neg (by rw [hbegin]; decide), if_pos hbegin]
  | succ D ih =>
    intro idx fuel hidx hfuel hclear hbegin
    obtain ⟨f, rfl⟩ : ∃ f, fuel = f + 1 := ⟨fuel - 1, by omega⟩
    have hcap : 0 < cap := by omega
    have h0 := hclear 0 (by omega)
    rw [Nat.add_zero, Nat.mod_eq_of_lt hidx] at h0
    have hmod : ∀ n, ((idx + 1) % cap + n) % cap = (idx + (n + 1)) % cap := by
      intro n
      rw [Nat.mod_add_mod]
      congr 1
      omega
    have hrec := ih ((idx + 1) % cap) f (Nat.mod_lt _ hcap) (by omega)
      (fun n hn => by rw [hmod n]; exact hclear (n + 1) (by omega))
      (by rw [hmod D]; exact hbegin)
    rw [hmod D] at hrec
    rw [scanEnd, if_neg h0.2, if_neg h0.1]
    exact hrec

/-- C7.  When the consumer cursor sits on an unescaped `BEGIN_FRAME_BYTE`
(with the buffer non-empty) and the forward scan meets another unescaped
`BEGIN_FRAME_BYTE` (at distance `D + 1` from the cursor) before any
`END_FRAME_BYTE` and before `head`, `GetFrame` abandons the first candidate:
it returns no frame and moves `tail` to the newer `BEGIN_FRAME_BYTE`, so the
first partial frame's bytes are discarded without an error or a `Frame`. -/
theorem c7_abandon_to_newer_begin (st : RxState) (D : Nat)
    (hh : st.head < st.cap) (ht : st.tail < st.cap)
    (hb : st.buf.getD st.tail 0 = BEGIN_FRAME_BYTE)
    (hne : st.tail ≠ st.head)
    (hfuel : D < dist st.cap ((st.tail + 1) % st.cap) st.head)
    (hclear : ∀ n < D,
      st.buf.getD (((st.tail + 1) % st.cap + n) % st.cap) 0 ≠ BEGIN_FRAME_BYTE ∧
      st.buf.getD (((st.tail + 1) % st.cap + n) % st.cap) 0 ≠ END_FRAME_BYTE)
    (hk : st.buf.getD (((st.tail + 1) % st.cap + D) % st.cap) 0 = BEGIN_FRAME_BYTE) :
    (GetFrame st).1 = none ∧
    (GetFrame st).2.1 = { st with tail := ((st.tail + 1) % st.cap + D) % st.cap } := by
  have hcap : 0 < st.cap := by omega
  have hscan1 := scanBegin_at_begin st.buf st.cap (dist st.cap st.tail st.head) st.tail hb
  have hscan2 := scanEnd_hits_begin st.buf st.cap st.head D ((st.tail + 1) % st.cap)
    (dist st.cap ((st.tail + 1) % st.cap) st.head) (Nat.mod_lt _ hcap) hfuel hclear hk
  rw [GetFrame]
  rw [hscan1]
  dsimp only
  rw [if_neg hne]
  rw [hscan2]
  exact ⟨rfl, rfl⟩

/-- C7 witness: a buffer `( 1 ( ) ...` with `head = 4`: the scan from the
first `BEGIN` meets the second `BEGIN` at index 2 before any `END`, so no
frame is produced and `tail` moves to 2. -/
theorem c7_witness :
    (GetFrame ⟨8, [40, 1, 40, 41, 0, 0, 0, 0], 4, 0⟩).1 = none ∧
    (GetFrame ⟨8, [40, 1, 40, 41, 0, 0, 0, 0], 4, 0⟩).2.1.tail = 2 := by
  have h := c7_abandon_to_newer_begin ⟨8, [40, 1, 40, 41, 0, 0, 0, 0], 4, 0⟩ 1
    (by decide) (by decide) (by decide) (by decide) (by decide) (by decide) (by decide)
  refine ⟨h.1, ?_⟩
  rw [h.2]
  decide

/-! ## Claim C8: the extent of the interrupt-masked critical section -/

/-- The first scan's trace contains only buffer reads. -/
theorem scanBegin_trace_reads (buf : List Nat) (cap : Nat) :
    ∀ fuel tail, ∀ e ∈ (scanBegin buf cap fuel tail).2, ∃ i, e = Event.readBuf i := by
  intro fuel
  induction fuel with
  | zero =>
    intro tail e he
    simp only [scanBegin, List.mem_singleton] at he
    exact ⟨tail, he⟩
  | succ f ih =>
    intro tail e he
    by_cases h : buf.getD tail 0 = BEGIN_FRAME_BYTE
    · simp only [scanBegin, if_pos h, List.mem_singleton] at he
      exact ⟨tail, he⟩
    · simp only [scanBegin, if_neg h, List.mem_cons] at he
      rcases he with rfl | he
      · exact ⟨tail, rfl⟩
      · exact ih _ e he

/-- The second scan's trace contains only buffer reads. -/
theorem scanEnd_trace_reads (buf : List Nat) (cap : Nat) :
    ∀ fuel idx, ∀ e ∈ (scanEnd buf cap fuel idx).2, ∃ i, e = Event.readBuf i := by
  intro fuel
  induction fuel with
  | zero =>
    intro idx e he
    simp [scanEnd] at he
  | succ f ih =>
    intro idx e he
    by_cases h1 : buf.getD idx 0 = END_FRAME_BYTE
    · simp only [scanEnd, if_pos h1, List.mem_singleton] at he
      exact ⟨idx, he⟩
    by_cases h2 : buf.getD idx 0 = BEGIN_FRAME_BYTE
    · simp only [scanEnd, if_neg h1, if_pos h2, List.mem_singleton] at he
      exact ⟨idx, he⟩
    · simp only [scanEnd, if_neg h1, if_neg h2, List.mem_cons] at he
      rcases he with rfl | he
      · exact ⟨idx, rfl⟩
      · exact ih _ e he

/-- The ring-decode loop's trace contains only buffer reads. -/
theorem ringDecodeLoop_trace_reads (buf : List Nat) (cap head2 : Nat) :
    ∀ fuel idx dec, ∀ e ∈ (ringDecodeLoop buf cap head2 fuel idx dec).2,
      ∃ i, e = Event.readBuf i := by
  intro fuel
  induction fuel with
  | zero =>
    intro idx dec e he
    simp [ringDecodeLoop] at he
  | succ f ih =>
    intro idx dec e he
    by_cases h1 : idx = head2
    · simp [ringDecodeLoop, if_pos h1] at he
    rw [ringDecodeLoop, if_neg h1] at he
    dsimp only at he
    by_cases h2 : buf.getD idx 0 = END_FRAME_BYTE
    · rw [if_pos h2] at he
      simp only [List.mem_cons, List.not_mem_nil, or_false] at he
      rcases he with rfl | rfl
      · exact ⟨idx, rfl⟩
      · exact ⟨(idx + 1) % cap, rfl⟩
    · rw [if_neg h2] at he
      cases hdec : decode_byte [buf.getD idx 0, buf.getD ((idx + 1) % cap) 0] with
      | error e2 =>
        rw [hdec] at he
        dsimp only at he
        simp only [List.mem_cons, List.not_mem_nil, or_false] at he
        rcases he with rfl | rfl
        · exact ⟨idx, rfl⟩
        · exact ⟨(idx + 1) % cap, rfl⟩
      | ok p =>
        rw [hdec] at he
        dsimp only at he
        cases hpush : (dec.push_back p.1).1 with
        | none =>
          rw [hpush] at he
          dsimp only at he
          rw [List.mem_append] at he
          rcases he with he | he
          · simp only [List.mem_cons, List.not_mem_nil, or_false] at he
            rcases he with rfl | rfl
            · exact ⟨idx, rfl⟩
            · exact ⟨(idx + 1) % cap, rfl⟩
          · exact ih _ _ e he
        | some q =>
          rw [hpush] at he
          dsimp only at he
          simp only [List.mem_cons, List.not_mem_nil, or_false] at he
          rcases he with rfl | rfl
          · exact ⟨idx, rfl⟩
          · exact ⟨(idx + 1) % cap, rfl⟩

/-- The ring-deserializer's trace contains only buffer reads. -/
theorem deserialize_fromRing_trace_reads (st : RxState) :
    ∀ e ∈ (deserialize_fromRing st).2.2, ∃ i, e = Event.readBuf i := by
  intro e he
  rw [deserialize_fromRing] at he
  by_cases h1 : st.buf.getD st.tail 0 ≠ BEGIN_FRAME_BYTE
  · rw [if_pos h1] at he
    dsimp only at he
    simp only [List.mem_singleton] at he
    exact ⟨st.tail, he⟩
  rw [if_neg h1] at he
  by_cases h2 : st.getSize < FRAME_MIN_SIZE
  · rw [if_pos h2] at he
    dsimp only at he
    simp only [List.mem_singleton] at he
    exact ⟨st.tail, he⟩
  rw [if_neg h2] at he
  dsimp only at he
  have hreads := ringDecodeLoop_trace_reads st.buf st.cap (ringHead2 st)
    (dist st.cap ((st.tail + 1) % st.cap) (ringHead2 st)) ((st.tail + 1) % st.cap)
    (StaticVec.empty Nat (FRAME_MAX_SIZE - 2))
  cases hrr : (ringDecodeLoop st.buf st.cap (ringHead2 st)
      (dist st.cap ((st.tail + 1) % st.cap) (ringHead2 st)) ((st.tail + 1) % st.cap)
      (StaticVec.empty Nat (FRAME_MAX_SIZE - 2))).1 with
  | err e2 =>
    rw [hrr] at he
    dsimp only at he
    rcases List.mem_cons.mp he with rfl | he
    · exact ⟨st.tail, rfl⟩
    · exact hreads e he
  | atEnd idx dec =>
    rw [hrr] at he
    dsimp only at he
    by_cases h3 : st.buf.getD idx 0 = END_FRAME_BYTE
    · rw [if_pos h3] at he
      dsimp only at he
      rcases List.mem_cons.mp he with rfl | he
      · exact ⟨st.tail, rfl⟩
      · rcases List.mem_append.mp he with he | he
        · exact hreads e he
        · simp only [List.mem_singleton] at he
          exact ⟨idx, he⟩
    · rw [if_neg h3] at he
      dsimp only at he
      rcases List.mem_cons.mp he with rfl | he
      · exact ⟨st.tail, rfl⟩
      · rcases List.mem_append.mp he with he | he
        · exact hreads e he
        · simp only [List.mem_singleton] at he
          exact ⟨idx, he⟩

/-- C8 (amended).  For every buffer state, `GetFrame` masks the interrupt
for its whole body: the trace is `irqOff`, then only buffer-content reads
(the entire scan, and the decode when one happens, all execute masked), then
`irqOn` immediately before returning.  The critical section is not scoped to
index manipulation: every buffer read `GetFrame` performs happens inside it,
so its length grows with the number of bytes scanned. -/
theorem c8_whole_call_masked (st : RxState) :
    ∃ mid, (GetFrame st).2.2 = Event.irqOff :: mid ++ [Event.irqOn] ∧
      ∀ e ∈ mid, ∃ i, e = Event.readBuf i := by
  rw [GetFrame]
  dsimp only
  by_cases h1 : (scanBegin st.buf st.cap (dist st.cap st.tail st.head) st.tail).1 = st.head
  · rw [if_pos h1]
    exact ⟨_, rfl, scanBegin_trace_reads st.buf st.cap _ _⟩
  rw [if_neg h1]
  rcases h2 : (scanEnd st.buf st.cap
      (dist st.cap (((scanBegin st.buf st.cap (dist st.cap st.tail st.head) st.tail).1 + 1)
        % st.cap) st.head)
      (((scanBegin st.buf st.cap (dist st.cap st.tail st.head) st.tail).1 + 1) % st.cap)).1
    with j | j
  · refine ⟨_, rfl, fun e he => ?_⟩
    rcases List.mem_append.mp he with he | he
    · exact scanBegin_trace_reads st.buf st.cap _ _ e he
    · exact scanEnd_trace_reads st.buf st.cap _ _ e he
  · dsimp only
    by_cases h3 : st.head = j ∨ st.buf.getD j 0 ≠ END_FRAME_BYTE
    · rw [if_pos h3]
      refine ⟨_, rfl, fun e he => ?_⟩
      rcases List.mem_append.mp he with he | he
      · exact scanBegin_trace_reads st.buf st.cap _ _ e he
      · exact scanEnd_trace_reads st.buf st.cap _ _ e he
    · rw [if_neg h3]
      refine ⟨_, rfl, fun e he => ?_⟩
      rcases List.mem_append.mp he with he | he
      · rcases List.mem_append.mp he with he | he
        · exact scanBegin_trace_reads st.buf st.cap _ _ e he
        · exact scanEnd_trace_reads st.buf st.cap _ _ e he
      · exact deserialize_fromRing_trace_reads _ e he

/-- C8 counterexample: buffer-content reads do happen while the interrupt is
masked — with 4 unconsumed bytes the masked scan performs 5 reads, with 2
bytes it performs 3, so the masked span is not limited to index operations
and its length depends on the buffer occupancy. -/
theorem c8_counterexample :
    readsWhileMasked (GetFrame ⟨8, [1, 2, 3, 4, 0, 0, 0, 0], 4, 0⟩).2.2 = 5 ∧
    readsWhileMasked (GetFrame ⟨8, [1, 2, 0, 0, 0, 0, 0, 0], 2, 0⟩).2.2 = 3 ∧
    readsWhileMasked (GetFrame ⟨8, [1, 2, 3, 4, 0, 0, 0, 0], 4, 0⟩).2.2 ≠ 0 := by decide

/-! ## Claim C1: the serialize/deserialize round trip

Plain-list lemmas about the byte-order helpers, the CRC, the escaping and
the two codec directions, leading to the round-trip theorem. -/

theorem length_to_be_bytes (k n : Nat) : (to_be_bytes k n).length = k := by
  simp [to_be_bytes]

theorem to_be_bytes_one (n : Nat) : to_be_bytes 1 n = [n % 256] := by
  simp [to_be_bytes, List.range_succ]

theorem to_be_bytes_two (n : Nat) : to_be_bytes 2 n = [n / 256 % 256, n % 256] := by
  simp [to_be_bytes, List.range_succ]

theorem to_be_bytes_four (n : Nat) :
    to_be_bytes 4 n =
      [n / 256 ^ 3 % 256, n / 256 ^ 2 % 256, n / 256 % 256, n % 256] := by
  simp [to_be_bytes, List.range_succ]

theorem from_be_bytes_two (n : Nat) (h : n < 2 ^ 16) :
    from_be_bytes (to_be_bytes 2 n) = n := by
  rw [to_be_bytes_two]
  simp only [from_be_bytes, List.foldl_cons, List.foldl_nil]
  omega

theorem from_be_bytes_four (n : Nat) (h : n < 2 ^ 32) :
    from_be_bytes (to_be_bytes 4 n) = n := by
  rw [to_be_bytes_four]
  simp only [from_be_bytes, List.foldl_cons, List.foldl_nil]
  omega

theorem crc32_step_lt (c : Nat) : crc32_step c < 2 ^ 32 := by
  unfold crc32_step
  refine Nat.xor_lt_two_pow (Nat.mod_lt _ (by norm_num)) ?_
  split <;> norm_num

theorem crc32_step_iterate_lt (k c : Nat) (h : c < 2 ^ 32) : crc32_step^[k] c < 2 ^ 32 := by
  induction k generalizing c with
  | zero => simpa using h
  | succ k ih =>
    rw [Function.iterate_succ_apply]
    exact ih _ (crc32_step_lt c)

theorem crc32_calculate_lt (l : List Nat) : crc32_calculate l < 2 ^ 32 := by
  unfold crc32_calculate
  have main : ∀ (m : List Nat) (acc : Nat), acc < 2 ^ 32 →
      m.foldl (fun crc b => crc32_step^[8] (crc ^^^ ((b % 256) <<< 24))) acc < 2 ^ 32 := by
    intro m
    induction m with
    | nil => intro acc h; simpa using h
    | cons b rest ih =>
      intro acc h
      rw [List.foldl_cons]
      refine ih _ (crc32_step_iterate_lt 8 _ (Nat.xor_lt_two_pow h ?_))
      rw [Nat.shiftLeft_eq]
      have hb : b % 256 < 256 := Nat.mod_lt _ (by norm_num)
      have h24 : (2 : Nat) ^ 24 = 16777216 := by norm_num
      have h32 : (2 : Nat) ^ 32 = 4294967296 := by norm_num
      rw [h24, h32]
      omega
  exact main l 0xFFFFFFFF (by norm_num)

theorem crcPad_eq (l : List Nat) (cap : Nat) (h : l.length + 3 ≤ cap) :
    crcPad 3 ⟨cap, l⟩ = ⟨cap, pad4 l⟩ := by
  have hpb : ∀ (m : List Nat), m.length < cap →
      ((⟨cap, m⟩ : StaticVec Nat).push_back 0).2 = ⟨cap, m ++ [0]⟩ := by
    intro m hm
    simp [StaticVec.push_back, hm]
  have h4 : l.length % 4 = 0 ∨ l.length % 4 = 1 ∨ l.length % 4 = 2 ∨ l.length % 4 = 3 := by
    omega
  unfold pad4
  rcases h4 with h4 | h4 | h4 | h4
  · rw [crcPad, if_neg (by simpa using h4)]
    have hr : (4 - l.length % 4) % 4 = 0 := by omega
    rw [hr]
    simp
  · rw [crcPad, if_pos (by simpa using (by omega : l.length % 4 ≠ 0)), hpb l (by omega)]
    rw [crcPad, if_pos (by simp; omega), hpb (l ++ [0]) (by simp; omega)]
    rw [crcPad, if_pos (by simp; omega), hpb ((l ++ [0]) ++ [0]) (by simp; omega)]
    have hr : (4 - l.length % 4) % 4 = 3 := by omega
    rw [crcPad, hr]
    simp [List.append_assoc]
  · rw [crcPad, if_pos (by simpa using (by omega : l.length % 4 ≠ 0)), hpb l (by omega)]
    rw [crcPad, if_pos (by simp; omega), hpb (l ++ [0]) (by simp; omega)]
    rw [crcPad, if_neg (by simp; omega)]
    have hr : (4 - l.length % 4) % 4 = 2 := by omega
    rw [hr]
    simp [List.append_assoc]
  · rw [crcPad, if_pos (by simpa using (by omega : l.length % 4 ≠ 0)), hpb l (by omega)]
    rw [crcPad, if_neg (by simp; omega)]
    have hr : (4 - l.length % 4) % 4 = 1 := by omega
    rw [hr]
    simp

/-- `Frame::crc32` computed on the plain field bytes: the staging vector
never fills, so the CRC is `crc32_calculate` over the zero-padded fields. -/
theorem crc32_eq (f : Frame) (hlen : f.data.items.length ≤ FRAME_DATA_MAX_SIZE) :
    f.crc32 = crc32_calculate (pad4 (fieldsPlain f)) := by
  have hlen' : f.data.items.length ≤ 1268 := by
    simpa [FRAME_DATA_MAX_SIZE, FRAME_MAX_SIZE, FRAME_MIN_SIZE] using hlen
  simp only [Frame.crc32]
  have e1 : ((StaticVec.empty Nat FRAME_MAX_SIZE).push_slice (to_be_bytes 1 f.sender)).2 =
      ⟨FRAME_MAX_SIZE, to_be_bytes 1 f.sender⟩ := by
    rw [push_slice_all _ _ (by simp [StaticVec.empty, length_to_be_bytes, FRAME_MAX_SIZE])]
    simp [StaticVec.empty]
  rw [e1]
  have e2 : ((⟨FRAME_MAX_SIZE, to_be_bytes 1 f.sender⟩ : StaticVec Nat).push_slice
      (to_be_bytes 1 f.receiver)).2 =
      ⟨FRAME_MAX_SIZE, to_be_bytes 1 f.sender ++ to_be_bytes 1 f.receiver⟩ := by
    rw [push_slice_all _ _ (by simp [length_to_be_bytes, FRAME_MAX_SIZE])]
  rw [e2]
  have e3 : ((⟨FRAME_MAX_SIZE, to_be_bytes 1 f.sender ++ to_be_bytes 1 f.receiver⟩ :
      StaticVec Nat).push_slice (to_be_bytes 2 f.data.items.length)).2 =
      ⟨FRAME_MAX_SIZE, (to_be_bytes 1 f.sender ++ to_be_bytes 1 f.receiver) ++
        to_be_bytes 2 f.data.items.length⟩ := by
    rw [push_slice_all _ _ (by simp [length_to_be_bytes, FRAME_MAX_SIZE])]
  rw [e3]
  have e4 : ((⟨FRAME_MAX_SIZE, (to_be_bytes 1 f.sender ++ to_be_bytes 1 f.receiver) ++
      to_be_bytes 2 f.data.items.length⟩ : StaticVec Nat).push_slice f.data.items).2 =
      ⟨FRAME_MAX_SIZE, ((to_be_bytes 1 f.sender ++ to_be_bytes 1 f.receiver) ++
        to_be_bytes 2 f.data.items.length) ++ f.data.items⟩ := by
    rw [push_slice_all _ _ (by
      simp only [List.length_append, length_to_be_bytes, FRAME_MAX_SIZE]
      omega)]
  rw [e4]
  rw [crcPad_eq _ _ (by
    simp only [List.length_append, length_to_be_bytes, FRAME_MAX_SIZE]
    omega)]
  unfold fieldsPlain
  simp [List.append_assoc]

theorem escList_nil : escList [] = [] := rfl

theorem escList_cons (b : Nat) (l : List Nat) :
    escList (b :: l) = escByte b ++ escList l := by
  simp [escList]

theorem escList_append (a b : List Nat) :
    escList (a ++ b) = escList a ++ escList b := by
  simp [escList]

theorem escByte_length (b : Nat) : (escByte b).length = 1 ∨ (escByte b).length = 2 := by
  unfold escByte
  split <;> simp

theorem escList_length_ge (l : List Nat) : l.length ≤ (escList l).length := by
  induction l with
  | nil => simp [escList]
  | cons b rest ih =>
    rw [escList_cons]
    have := escByte_length b
    simp only [List.length_append, List.length_cons]
    omega

theorem escList_length_le (l : List Nat) : (escList l).length ≤ 2 * l.length := by
  induction l with
  | nil => simp [escList]
  | cons b rest ih =>
    rw [escList_cons]
    have := escByte_length b
    simp only [List.length_append, List.length_cons]
    omega

/-- `encode_byte` on a vector with room appends the escaped image. -/
theorem encode_byte_eq (b : Nat) (out : StaticVec Nat)
    (h : out.items.length + (escByte b).length ≤ out.cap) :
    encode_byte b out = ⟨out.cap, out.items ++ escByte b⟩ := by
  have push2 : ∀ (c : Nat), out.items.length + 2 ≤ out.cap →
      ((out.push_back ESCAPE_BYTE).2.push_back c).2 =
        ⟨out.cap, out.items ++ [ESCAPE_BYTE, c]⟩ := by
    intro c hc
    have h1 : (out.push_back ESCAPE_BYTE).2 = ⟨out.cap, out.items ++ [ESCAPE_BYTE]⟩ := by
      simp [StaticVec.push_back, show out.items.length < out.cap by omega]
    rw [h1]
    simp only [StaticVec.push_back]
    rw [if_pos (by simp only [List.length_append, List.length_cons, List.length_nil]; omega)]
    simp
  by_cases h27 : b = ESCAPE_BYTE
  · subst h27
    have hesc : escByte ESCAPE_BYTE = [ESCAPE_BYTE, 0x41] := rfl
    rw [hesc] at h
    have hstep : encode_byte ESCAPE_BYTE out = ((out.push_back ESCAPE_BYTE).2.push_back 0x41).2 :=
      rfl
    rw [hstep, hesc, push2 0x41 (by simpa using h)]
  · by_cases h40 : b = BEGIN_FRAME_BYTE
    · subst h40
      have hesc : escByte BEGIN_FRAME_BYTE = [ESCAPE_BYTE, 0x42] := rfl
      rw [hesc] at h
      have hstep : encode_byte BEGIN_FRAME_BYTE out =
          ((out.push_back ESCAPE_BYTE).2.push_back 0x42).2 := rfl
      rw [hstep, hesc, push2 0x42 (by simpa using h)]
    · by_cases h41 : b = END_FRAME_BYTE
      · subst h41
        have hesc : escByte END_FRAME_BYTE = [ESCAPE_BYTE, 0x43] := rfl
        rw [hesc] at h
        have hstep : encode_byte END_FRAME_BYTE out =
            ((out.push_back ESCAPE_BYTE).2.push_back 0x43).2 := rfl
        rw [hstep, hesc, push2 0x43 (by simpa using h)]
      · have hfind : ESCAPE_TABLE.find? (fun e => e.1 == b) = none := by
          have e1 : ((ESCAPE_BYTE == b) : Bool) = false :=
            beq_eq_false_iff_ne.mpr (Ne.symm h27)
          have e2 : ((BEGIN_FRAME_BYTE == b) : Bool) = false :=
            beq_eq_false_iff_ne.mpr (Ne.symm h40)
          have e3 : ((END_FRAME_BYTE == b) : Bool) = false :=
            beq_eq_false_iff_ne.mpr (Ne.symm h41)
          simp [ESCAPE_TABLE, List.find?, e1, e2, e3]
        have hesc : escByte b = [b] := by
          unfold escByte
          rw [hfind]
        rw [hesc] at h
        unfold encode_byte
        rw [hfind, hesc]
        dsimp only
        simp [StaticVec.push_back, show out.items.length < out.cap by
          simpa using h]

/-- `encode_bytes` on a vector with room appends the escaped sequence. -/
theorem encode_bytes_eq (l : List Nat) : ∀ (out : StaticVec Nat),
    out.items.length + (escList l).length ≤ out.cap →
    encode_bytes l out = ⟨out.cap, out.items ++ escList l⟩ := by
  induction l with
  | nil =>
    intro out h
    simp [encode_bytes, escList_nil]
  | cons b rest ih =>
    intro out h
    rw [escList_cons] at h ⊢
    have hb : out.items.length + (escByte b).length ≤ out.cap := by
      simp only [List.length_append] at h
      omega
    have step : encode_bytes (b :: rest) out = encode_bytes rest (encode_byte b out) := rfl
    rw [step, encode_byte_eq b out hb]
    rw [ih _ (by simp only [List.length_append] at h ⊢; omega)]
    simp

/-- `Frame::serialize_into` into an empty destination with enough capacity
succeeds and writes exactly the wire image. -/
theorem serialize_into_eq (f : Frame) (cap : Nat)
    (hlen : f.data.items.length ≤ FRAME_DATA_MAX_SIZE)
    (hcap : (wireBytes f).length ≤ cap) :
    f.serialize_into (StaticVec.empty Nat cap) = (SerializeOk, ⟨cap, wireBytes f⟩) := by
  have hwl : (wireBytes f).length =
      1 + ((escList (fieldsPlain f)).length + ((escList (to_be_bytes 4 f.crc32)).length + 1)) := by
    simp only [wireBytes, List.length_cons, List.length_append, List.length_nil]
    try omega
  have hfp : escList (fieldsPlain f) =
      ((escList (to_be_bytes 1 f.sender) ++ escList (to_be_bytes 1 f.receiver)) ++
        escList (to_be_bytes 2 f.data.items.length)) ++ escList f.data.items := by
    unfold fieldsPlain
    simp [escList_append, List.append_assoc]
  have hfpl : (escList (fieldsPlain f)).length =
      (escList (to_be_bytes 1 f.sender)).length + (escList (to_be_bytes 1 f.receiver)).length +
        (escList (to_be_bytes 2 f.data.items.length)).length + (escList f.data.items).length := by
    rw [hfp]
    simp only [List.length_append]
    try omega
  unfold Frame.serialize_into serialize_fields
  rw [if_neg (by omega)]
  dsimp only
  have e0 : ((StaticVec.empty Nat cap).push_back BEGIN_FRAME_BYTE).2 =
      ⟨cap, [BEGIN_FRAME_BYTE]⟩ := by
    have h0 : (0 : Nat) < cap := by omega
    simp [StaticVec.empty, StaticVec.push_back, h0]
  rw [e0]
  rw [encode_bytes_eq (to_be_bytes 1 f.sender) ⟨cap, [BEGIN_FRAME_BYTE]⟩ (by
    dsimp only
    simp only [List.length_cons, List.length_nil]
    omega)]
  rw [encode_bytes_eq (to_be_bytes 1 f.receiver)
    ⟨cap, [BEGIN_FRAME_BYTE] ++ escList (to_be_bytes 1 f.sender)⟩ (by
    dsimp only
    simp only [List.length_cons, List.length_nil, List.length_append]
    omega)]
  rw [encode_bytes_eq (to_be_bytes 2 f.data.items.length)
    ⟨cap, [BEGIN_FRAME_BYTE] ++ escList (to_be_bytes 1 f.sender) ++
      escList (to_be_bytes 1 f.receiver)⟩ (by
    dsimp only
    simp only [List.length_cons, List.length_nil, List.length_append]
    omega)]
  rw [encode_bytes_eq f.data.items
    ⟨cap, [BEGIN_FRAME_BYTE] ++ escList (to_be_bytes 1 f.sender) ++
      escList (to_be_bytes 1 f.receiver) ++ escList (to_be_bytes 2 f.data.items.length)⟩ (by
    dsimp only
    simp only [List.length_cons, List.length_nil, List.length_append]
    omega)]
  rw [encode_bytes_eq (to_be_bytes 4 f.crc32)
    ⟨cap, [BEGIN_FRAME_BYTE] ++ escList (to_be_bytes 1 f.sender) ++
      escList (to_be_bytes 1 f.receiver) ++ escList (to_be_bytes 2 f.data.items.length) ++
      escList f.data.items⟩ (by
    dsimp only
    simp only [List.length_cons, List.length_nil, List.length_append]
    omega)]
  have efin : ((⟨cap, (((([BEGIN_FRAME_BYTE] ++ escList (to_be_bytes 1 f.sender)) ++
      escList (to_be_bytes 1 f.receiver)) ++ escList (to_be_bytes 2 f.data.items.length)) ++
      escList f.data.items) ++ escList (to_be_bytes 4 f.crc32)⟩ : StaticVec Nat).push_back
        END_FRAME_BYTE) =
      (none, ⟨cap, ((((([BEGIN_FRAME_BYTE] ++ escList (to_be_bytes 1 f.sender)) ++
        escList (to_be_bytes 1 f.receiver)) ++ escList (to_be_bytes 2 f.data.items.length)) ++
        escList f.data.items) ++ escList (to_be_bytes 4 f.crc32)) ++ [END_FRAME_BYTE]⟩) := by
    simp only [StaticVec.push_back]
    rw [if_pos (by simp only [List.length_append, List.length_cons, List.length_nil]; omega)]
  rw [efin]
  simp only [Option.isSome_none, Bool.false_eq_true, if_false]
  refine congrArg (fun x => (SerializeOk, x)) ?_
  refine congrArg (fun l => (⟨cap, l⟩ : StaticVec Nat)) ?_
  rw [wireBytes, hfp]
  simp [List.append_assoc]

/-- `decode_byte` inverts `escByte`, consuming exactly its length. -/
theorem decode_byte_escByte (b : Nat) (rest : List Nat) :
    decode_byte (escByte b ++ rest) = .ok (b, (escByte b).length) := by
  by_cases h27 : b = ESCAPE_BYTE
  · subst h27
    rfl
  · by_cases h40 : b = BEGIN_FRAME_BYTE
    · subst h40
      rfl
    · by_cases h41 : b = END_FRAME_BYTE
      · subst h41
        rfl
      · have hfind : ESCAPE_TABLE.find? (fun e => e.1 == b) = none := by
          have e1 : ((ESCAPE_BYTE == b) : Bool) = false :=
            beq_eq_false_iff_ne.mpr (Ne.symm h27)
          have e2 : ((BEGIN_FRAME_BYTE == b) : Bool) = false :=
            beq_eq_false_iff_ne.mpr (Ne.symm h40)
          have e3 : ((END_FRAME_BYTE == b) : Bool) = false :=
            beq_eq_false_iff_ne.mpr (Ne.symm h41)
          simp [ESCAPE_TABLE, List.find?, e1, e2, e3]
        have hesc : escByte b = [b] := by
          unfold escByte
          rw [hfind]
        rw [hesc]
        simp only [List.cons_append, List.nil_append, decode_byte]
        rw [if_neg h27, if_neg (by push_neg; exact ⟨h40, h41⟩)]
        simp

/-- `decode_bytes` inverts `escList` when the output vector has room,
appending exactly the original bytes. -/
theorem decode_bytes_escList (l : List Nat) : ∀ (out : StaticVec Nat),
    out.items.length + l.length ≤ out.cap →
    decode_bytes out (escList l) = .ok ⟨out.cap, out.items ++ l⟩ := by
  induction l with
  | nil =>
    intro out h
    rw [escList_nil]
    simp [decode_bytes]
  | cons b rest ih =>
    intro out h
    rw [escList_cons]
    have hdb := decode_byte_escByte b (escList rest)
    have hlen := escByte_length b
    rcases hshape : escByte b with _ | ⟨e0, etail⟩
    · rw [hshape] at hlen
      simp at hlen
    · rw [hshape] at hdb
      rw [List.cons_append] at hdb
      have hpush : (out.push_back b).2 = ⟨out.cap, out.items ++ [b]⟩ := by
        simp only [List.length_cons] at h
        simp [StaticVec.push_back, show out.items.length < out.cap by omega]
      have hdrop : (etail ++ escList rest).drop ((e0 :: etail).length - 1) = escList rest := by
        simp only [List.length_cons, Nat.add_sub_cancel]
        exact List.drop_left etail (escList rest)
      rw [List.cons_append, decode_bytes, hdb]
      dsimp only
      rw [hdrop, hpush]
      rw [ih ⟨out.cap, out.items ++ [b]⟩ (by
        simp only [List.length_append, List.length_cons, List.length_nil]
        simp only [List.length_cons] at h
        omega)]
      simp

set_option maxHeartbeats 1000000 in
/-- Parsing the plain field bytes followed by the matching CRC succeeds and
rebuilds the frame. -/
theorem deser_decoded_roundtrip (g : Frame) (s r crcv : Nat) (items : List Nat)
    (hs : s < 256) (hr : r < 256) (hlen : items.length ≤ FRAME_DATA_MAX_SIZE)
    (hg : g.data.cap = FRAME_DATA_MAX_SIZE) (hcrc : crcv < 2 ^ 32)
    (hcrcv : crcv = Frame.crc32 ⟨s, r, ⟨g.data.cap, items⟩⟩) :
    g.deserialize_from_decoded
      ((to_be_bytes 1 s ++ to_be_bytes 1 r ++ to_be_bytes 2 items.length ++ items) ++
        to_be_bytes 4 crcv) =
      (DeserializeOk, ⟨s, r, ⟨g.data.cap, items⟩⟩) := by
  have h1268 : items.length ≤ 1268 := by
    simpa [FRAME_DATA_MAX_SIZE, FRAME_MAX_SIZE, FRAME_MIN_SIZE] using hlen
  have h16 : items.length < 2 ^ 16 := by omega
  have hdec : (to_be_bytes 1 s ++ to_be_bytes 1 r ++ to_be_bytes 2 items.length ++ items) ++
      to_be_bytes 4 crcv =
      s :: r :: (items.length / 256 % 256) :: (items.length % 256) ::
        (items ++ to_be_bytes 4 crcv) := by
    rw [to_be_bytes_one, to_be_bytes_one, to_be_bytes_two,
      Nat.mod_eq_of_lt hs, Nat.mod_eq_of_lt hr]
    simp [List.append_assoc]
  rw [hdec]
  have hrl : (items ++ to_be_bytes 4 crcv).length = items.length + 4 := by
    simp [length_to_be_bytes]
  have hf1 : deserializeField (s :: r :: (items.length / 256 % 256) :: (items.length % 256) ::
      (items ++ to_be_bytes 4 crcv)) 0 1 = .ok (s, 1) := by
    unfold deserializeField
    rw [if_neg (by simp)]
    simp [from_be_bytes]
  have hf2 : deserializeField (s :: r :: (items.length / 256 % 256) :: (items.length % 256) ::
      (items ++ to_be_bytes 4 crcv)) 1 1 = .ok (r, 2) := by
    unfold deserializeField
    rw [if_neg (by simp)]
    simp [from_be_bytes]
  have hf3 : deserializeField (s :: r :: (items.length / 256 % 256) :: (items.length % 256) ::
      (items ++ to_be_bytes 4 crcv)) 2 2 = .ok (items.length, 4) := by
    unfold deserializeField
    rw [if_neg (by simp)]
    have : from_be_bytes [items.length / 256 % 256, items.length % 256] = items.length := by
      simp only [from_be_bytes, List.foldl_cons, List.foldl_nil]
      omega
    simp only [List.drop_zero, List.drop_succ_cons, List.take_succ_cons, List.take_zero]
    rw [show (2 : Nat) + 2 = 4 from rfl]
    exact congrArg Except.ok (by rw [this])
  rw [Frame.deserialize_from_decoded]
  rw [hf1]
  dsimp only
  rw [hf2]
  dsimp only
  rw [hf3]
  dsimp only
  rw [if_neg (by omega)]
  rw [if_neg (by
    simp only [List.length_cons, hrl]
    omega)]
  have hslice : ((s :: r :: (items.length / 256 % 256) :: (items.length % 256) ::
      (items ++ to_be_bytes 4 crcv)).drop 4).take items.length = items := by
    simp only [List.drop_succ_cons, List.drop_zero]
    exact List.take_left items (to_be_bytes 4 crcv)
  rw [hslice]
  have hdata : (g.data.clear.push_slice items).2 = ⟨g.data.cap, items⟩ := by
    unfold StaticVec.clear
    rw [push_slice_all ⟨g.data.cap, []⟩ items (by
      simp only [List.length_nil, Nat.zero_add]
      rw [hg]
      exact hlen)]
    simp
  rw [hdata]
  have hf4 : deserializeField (s :: r :: (items.length / 256 % 256) :: (items.length % 256) ::
      (items ++ to_be_bytes 4 crcv)) (4 + items.length) 4 = .ok (crcv, 4 + items.length + 4) := by
    unfold deserializeField
    rw [if_neg (by
      simp only [List.length_cons, hrl]
      omega)]
    have hdrop : (s :: r :: (items.length / 256 % 256) :: (items.length % 256) ::
        (items ++ to_be_bytes 4 crcv)).drop (4 + items.length) = to_be_bytes 4 crcv := by
      have hsplit : s :: r :: (items.length / 256 % 256) :: (items.length % 256) ::
          (items ++ to_be_bytes 4 crcv) =
          (s :: r :: (items.length / 256 % 256) :: (items.length % 256) :: items) ++
            to_be_bytes 4 crcv := by
        simp
      rw [hsplit]
      have hplen : (s :: r :: (items.length / 256 % 256) :: (items.length % 256) ::
          items).length = 4 + items.length := by
        simp only [List.length_cons]
        omega
      rw [← hplen]
      exact List.drop_left _ _
    rw [hdrop]
    have htake : (to_be_bytes 4 crcv).take 4 = to_be_bytes 4 crcv := by
      conv => lhs; rw [show (4 : Nat) = (to_be_bytes 4 crcv).length from (length_to_be_bytes 4 crcv).symm]
      exact List.take_length _
    rw [htake, from_be_bytes_four crcv hcrc]
  rw [hf4]
  dsimp only
  rw [if_neg (by
    simp only [List.length_cons, hrl]
    omega)]
  rw [if_neg (by
    push_neg
    rw [hcrcv])]

/-- Deserializing the wire image of a well-formed frame succeeds and yields
its sender, receiver and payload. -/
theorem deserialize_from_wire (f g : Frame) (hf : f.WF)
    (hg : g.data.cap = FRAME_DATA_MAX_SIZE) :
    g.deserialize_from (wireBytes f) =
      (DeserializeOk, ⟨f.sender, f.receiver, ⟨g.data.cap, f.data.items⟩⟩) := by
  have hlen : f.data.items.length ≤ FRAME_DATA_MAX_SIZE := hf.2.2.1 ▸ hf.2.2.2
  have h1268 : f.data.items.length ≤ 1268 := by
    simpa [FRAME_DATA_MAX_SIZE, FRAME_MAX_SIZE, FRAME_MIN_SIZE] using hlen
  have hAlen : (fieldsPlain f).length = 4 + f.data.items.length := by
    simp only [fieldsPlain, List.length_append, length_to_be_bytes]
    try omega
  have hgeA := escList_length_ge (fieldsPlain f)
  have hgeC := escList_length_ge (to_be_bytes 4 f.crc32)
  have hClen : (to_be_bytes 4 f.crc32).length = 4 := length_to_be_bytes 4 _
  have hwl : (wireBytes f).length =
      1 + ((escList (fieldsPlain f)).length + ((escList (to_be_bytes 4 f.crc32)).length + 1)) := by
    simp only [wireBytes, List.length_cons, List.length_append, List.length_nil]
    try omega
  rw [Frame.deserialize_from]
  rw [if_neg (by
    rw [hwl]
    unfold FRAME_MIN_SIZE
    omega)]
  rw [if_neg (by
    rw [wireBytes]
    simp [BEGIN_FRAME_BYTE])]
  have hcat : ∀ (l : List Nat) (a d : Nat), (l ++ [a]).getLastD d = a := by
    intro l a d
    simp
  have hlast : (wireBytes f).getLastD 0 = END_FRAME_BYTE := by
    rw [show wireBytes f = (BEGIN_FRAME_BYTE :: (escList (fieldsPlain f) ++
      escList (to_be_bytes 4 f.crc32))) ++ [END_FRAME_BYTE] by simp [wireBytes]]
    exact hcat _ _ _
  rw [if_neg (not_ne_iff.mpr hlast)]
  have hint : ((wireBytes f).drop 1).dropLast =
      escList (fieldsPlain f ++ to_be_bytes 4 f.crc32) := by
    rw [escList_append]
    rw [show wireBytes f = BEGIN_FRAME_BYTE :: ((escList (fieldsPlain f) ++
      escList (to_be_bytes 4 f.crc32)) ++ [END_FRAME_BYTE]) by simp [wireBytes]]
    simp only [List.drop_succ_cons, List.drop_zero]
    exact List.dropLast_concat
  rw [hint]
  rw [decode_bytes_escList (fieldsPlain f ++ to_be_bytes 4 f.crc32)
    (StaticVec.empty Nat FRAME_MAX_SIZE) (by
      simp only [StaticVec.empty, List.length_nil, List.length_append, hAlen, hClen,
        FRAME_MAX_SIZE]
      omega)]
  dsimp only [StaticVec.empty]
  have hcrc_eq : f.crc32 =
      Frame.crc32 ⟨f.sender, f.receiver, ⟨g.data.cap, f.data.items⟩⟩ := by
    rw [crc32_eq f hlen, crc32_eq ⟨f.sender, f.receiver, ⟨g.data.cap, f.data.items⟩⟩ hlen]
    rfl
  have happ : ([] : List Nat) ++ (fieldsPlain f ++ to_be_bytes 4 f.crc32) =
      (to_be_bytes 1 f.sender ++ to_be_bytes 1 f.receiver ++
        to_be_bytes 2 f.data.items.length ++ f.data.items) ++ to_be_bytes 4 f.crc32 := by
    rw [List.nil_append]
    rfl
  rw [happ]
  exact deser_decoded_roundtrip g f.sender f.receiver f.crc32 f.data.items hf.1 hf.2.1 hlen
    hg (by rw [crc32_eq f hlen]; exact crc32_calculate_lt _) hcrc_eq

/-- C1.  For every well-formed frame whose payload fits in
`FRAME_DATA_MAX_SIZE`, serializing into an empty destination of sufficient
capacity succeeds, and deserializing the produced byte sequence yields
`DeserializeOk` and a frame equal to the original (same sender, same
receiver, same payload bytes). -/
theorem c1_serialize_deserialize_roundtrip (f g : Frame) (cap : Nat) (hf : f.WF)
    (hg : g.data.cap = FRAME_DATA_MAX_SIZE) (hcap : (wireBytes f).length ≤ cap) :
    (f.serialize_into (StaticVec.empty Nat cap)).1 = SerializeOk ∧
    (g.deserialize_from (f.serialize_into (StaticVec.empty Nat cap)).2.items).1 =
      DeserializeOk ∧
    frameEq (g.deserialize_from (f.serialize_into (StaticVec.empty Nat cap)).2.items).2 f := by
  have hlen : f.data.items.length ≤ FRAME_DATA_MAX_SIZE := hf.2.2.1 ▸ hf.2.2.2
  rw [serialize_into_eq f cap hlen hcap]
  dsimp only
  rw [deserialize_from_wire f g hf hg]
  exact ⟨rfl, rfl, rfl, rfl, rfl⟩

set_option maxRecDepth 40000 in
/-- C1 witness: a concrete frame with payload `[3, '(', ESC]` (which
exercises the escaping) round-trips through a 2560-byte destination. -/
theorem c1_witness :
    ((⟨1, 2, ⟨FRAME_DATA_MAX_SIZE, [3, 40, 27]⟩⟩ : Frame).serialize_into
      (StaticVec.empty Nat 2560)).1 = SerializeOk ∧
    (frame0.deserialize_from
      ((⟨1, 2, ⟨FRAME_DATA_MAX_SIZE, [3, 40, 27]⟩⟩ : Frame).serialize_into
        (StaticVec.empty Nat 2560)).2.items).1 = DeserializeOk ∧
    frameEq (frame0.deserialize_from
      ((⟨1, 2, ⟨FRAME_DATA_MAX_SIZE, [3, 40, 27]⟩⟩ : Frame).serialize_into
        (StaticVec.empty Nat 2560)).2.items).2
      ⟨1, 2, ⟨FRAME_DATA_MAX_SIZE, [3, 40, 27]⟩⟩ :=
  c1_serialize_deserialize_roundtrip ⟨1, 2, ⟨FRAME_DATA_MAX_SIZE, [3, 40, 27]⟩⟩ frame0 2560
    (by decide) rfl (by decide)

/-! ## Claim C2: one response per accepted frame -/

/-- `SendData` always sends exactly one frame: `push_slice` truncates the
staged payload to `FRAME_DATA_MAX_SIZE`, which keeps the wire image within
the `FRAME_MAX_SIZE * 2` destination capacity, so serialization never
fails and the early-return branch is unreachable. -/
theorem wireBytes_length_le (f : Frame) (h : f.data.items.length ≤ FRAME_DATA_MAX_SIZE) :
    (wireBytes f).length ≤ FRAME_MAX_SIZE * 2 := by
  have h1 := escList_length_le (fieldsPlain f)
  have h2 := escList_length_le (to_be_bytes 4 f.crc32)
  have h3 : (fieldsPlain f).length = 4 + f.data.items.length := by
    simp only [fieldsPlain, List.length_append, length_to_be_bytes]
    try omega
  have h4 : (to_be_bytes 4 f.crc32).length = 4 := length_to_be_bytes _ _
  have hd : FRAME_DATA_MAX_SIZE = 1268 := rfl
  have hm : FRAME_MAX_SIZE = 1280 := rfl
  simp only [wireBytes, List.length_cons, List.length_append, List.length_nil]
  omega

theorem SendData_singleton (receiver : Nat) (data : List Nat) :
    SendData receiver data =
      [{ sender := LOCAL_ID, receiver := receiver,
         data := ⟨FRAME_DATA_MAX_SIZE, data.take FRAME_DATA_MAX_SIZE⟩ }] := by
  have hps : ((StaticVec.empty Nat FRAME_DATA_MAX_SIZE).push_slice data).2 =
      ⟨FRAME_DATA_MAX_SIZE, data.take FRAME_DATA_MAX_SIZE⟩ := by
    rw [push_slice_eq]
    simp [StaticVec.empty]
  unfold SendData
  dsimp only
  rw [hps]
  rw [serialize_into_eq
    ⟨LOCAL_ID, receiver, ⟨FRAME_DATA_MAX_SIZE, data.take FRAME_DATA_MAX_SIZE⟩⟩
    (FRAME_MAX_SIZE * 2) (List.length_take_le _ _)
    (wireBytes_length_le _ (List.length_take_le _ _))]
  rw [if_pos rfl]

/-- C2 (amended).  A frame addressed to the local node whose payload splits
into at least one token gets exactly one response frame, sent from
`LOCAL_ID` back to the frame's sender and carrying the handler's reply
truncated to the payload capacity; a frame addressed to the local node
whose payload splits into zero tokens gets no response at all (the
`UnknownCommand` reply for an empty token list is unreachable from the
loop); a frame addressed elsewhere gets no response. -/
theorem c2_amended (st : SysState) (f : Frame) :
    (∀ args, f.receiver = LOCAL_ID → ParseCommands f.data.items = some args →
      (HandleFrame st f).2 =
        [{ sender := LOCAL_ID, receiver := f.sender,
           data := ⟨FRAME_DATA_MAX_SIZE,
             ((ExecuteCommand st args).2.1).take FRAME_DATA_MAX_SIZE⟩ }]) ∧
    (f.receiver = LOCAL_ID → ParseCommands f.data.items = none →
      (HandleFrame st f).2 = []) ∧
    (f.receiver ≠ LOCAL_ID → (HandleFrame st f).2 = []) := by
  refine ⟨?_, ?_, ?_⟩
  · intro args hrec hparse
    unfold HandleFrame
    rw [if_neg (not_ne_iff.mpr hrec), hparse]
    dsimp only
    rw [SendData_singleton]
  · intro hrec hparse
    unfold HandleFrame
    rw [if_neg (not_ne_iff.mpr hrec), hparse]
  · intro hne
    unfold HandleFrame
    rw [if_pos hne]

/-- C2 counterexample: a well-formed frame addressed to the local node with
an empty payload — its payload splits into zero tokens — gets zero response
frames, not an `UnknownCommand` response, because `HandlePendingCommands`
skips execution entirely when `ParseCommands` yields no token. -/
theorem c2_counterexample :
    (Frame.mk 7 LOCAL_ID ⟨FRAME_DATA_MAX_SIZE, []⟩).WF ∧
    (Frame.mk 7 LOCAL_ID ⟨FRAME_DATA_MAX_SIZE, []⟩).receiver = LOCAL_ID ∧
    (HandleFrame ⟨64000000, 999, [0], [], false⟩
      (Frame.mk 7 LOCAL_ID ⟨FRAME_DATA_MAX_SIZE, []⟩)).2 = [] := by
  refine ⟨by decide, rfl, ?_⟩
  rfl

/-- C2 witness: a frame carrying the token `ON` addressed to the local node
yields exactly one response frame back to its sender, and a frame addressed
elsewhere yields none. -/
theorem c2_witness :
    (HandleFrame ⟨64000000, 999, [0], [], false⟩
        (Frame.mk 7 LOCAL_ID ⟨FRAME_DATA_MAX_SIZE, strBytes "ON"⟩)).2 =
      [{ sender := LOCAL_ID, receiver := 7,
         data := ⟨FRAME_DATA_MAX_SIZE,
           ((ExecuteCommand ⟨64000000, 999, [0], [], false⟩
              [strBytes "ON"]).2.1).take FRAME_DATA_MAX_SIZE⟩ }] ∧
    (HandleFrame ⟨64000000, 999, [0], [], false⟩
        (Frame.mk 7 5 ⟨FRAME_DATA_MAX_SIZE, []⟩)).2 = [] :=
  ⟨(c2_amended ⟨64000000, 999, [0], [], false⟩
      (Frame.mk 7 LOCAL_ID ⟨FRAME_DATA_MAX_SIZE, strBytes "ON"⟩)).1
      [strBytes "ON"] rfl (by decide),
   (c2_amended ⟨64000000, 999, [0], [], false⟩
      (Frame.mk 7 5 ⟨FRAME_DATA_MAX_SIZE, []⟩)).2.2 (by decide)⟩

end Stm32
